import Mathlib

/-!
Shallow embedding of the apitrace trace-stream decoder
(src/common/trace_parser.cpp, namespace trace) and proofs of the spec
claims about it.

The byte source (the File backend) is modelled as an immutable list of
bytes plus a read position; getc, read, skip, currentOffset and
setCurrentOffset follow the contract in spec section 6 (EOF is getc
returning none, read and skip past EOF are silently truncated).
Machine integers are modelled as Nat with explicit reduction mod 2 to
the word size where the source narrows (unsigned long long accumulation
in read_uint, unsigned and int loop counters in the signature parsers).
The process-terminating paths of the source (exit(1) on an unknown tag)
are modelled by the Res.fatal result.  The recursive parsers take a
fuel argument, decremented at every recursive call, so that all
definitions are structurally recursive and executable; fuel exhaustion
is also mapped to Res.fatal and never occurs in any theorem below,
since every theorem either supplies enough fuel or is conditioned on a
successful (Res.ok) run.
-/

/-- Modelled from the spec, section 6 wire format: event and call-detail
tag bytes (trace_format.hpp is not part of src).  ENTER=0, LEAVE=1,
ARG=2, RET=3, END=4. -/
def EVENT_ENTER : Nat := 0x00

/-- Modelled from the spec, section 6: the LEAVE event tag. -/
def EVENT_LEAVE : Nat := 0x01

/-- Modelled from the spec, section 6: the CALL_ARG detail tag. -/
def CALL_ARG : Nat := 0x02

/-- Modelled from the spec, section 6: the CALL_RET detail tag. -/
def CALL_RET : Nat := 0x03

/-- Modelled from the spec, section 6: the CALL_END detail tag. -/
def CALL_END : Nat := 0x04

/-- Modelled from the spec, section 6: value type tag NULL. -/
def TYPE_NULL : Nat := 0x00

/-- Modelled from the spec, section 6: value type tag FALSE. -/
def TYPE_FALSE : Nat := 0x01

/-- Modelled from the spec, section 6: value type tag TRUE. -/
def TYPE_TRUE : Nat := 0x02

/-- Modelled from the spec, section 6: value type tag SINT. -/
def TYPE_SINT : Nat := 0x03

/-- Modelled from the spec, section 6: value type tag UINT. -/
def TYPE_UINT : Nat := 0x04

/-- Modelled from the spec, section 6: value type tag FLOAT. -/
def TYPE_FLOAT : Nat := 0x05

/-- Modelled from the spec, section 6: value type tag DOUBLE. -/
def TYPE_DOUBLE : Nat := 0x06

/-- Modelled from the spec, section 6: value type tag STRING. -/
def TYPE_STRING : Nat := 0x07

/-- Modelled from the spec, section 6: value type tag ENUM. -/
def TYPE_ENUM : Nat := 0x08

/-- Modelled from the spec, section 6: value type tag BITMASK. -/
def TYPE_BITMASK : Nat := 0x09

/-- Modelled from the spec, section 6: value type tag ARRAY. -/
def TYPE_ARRAY : Nat := 0x0A

/-- Modelled from the spec, section 6: value type tag STRUCT. -/
def TYPE_STRUCT : Nat := 0x0B

/-- Modelled from the spec, section 6: value type tag BLOB. -/
def TYPE_BLOB : Nat := 0x0C

/-- Modelled from the spec, section 6: value type tag 0x0D, named
TYPE_OPAQUE in the format header, produces a Pointer value. -/
def TYPE_POINTER : Nat := 0x0D

/-- Modelled from the spec, section 6: CALL_FLAG_INCOMPLETE, the flag
bit the decoder sets on a call whose LEAVE was never seen
(trace_model.hpp is not part of src; the concrete bit value is a
representative distinct bit). -/
def CALL_FLAG_INCOMPLETE : Nat := 0x01

/-- Modelled from the spec, section 6: CALL_FLAG_VERBOSE, the flag bit
set on glGetError calls returning 0 (representative distinct bit). -/
def CALL_FLAG_VERBOSE : Nat := 0x02

/-- Decoded value tree (trace::Value class hierarchy, spec section 3).
Signature references (pointers in the source) are represented by the
signature id, which identifies the signature uniquely within one
table for the lifetime of the session.  Float and Double keep their
raw little-endian bytes; the claims never interpret them. -/
inductive Value where
  | null : Value
  | bool : Bool → Value
  | sint : Int → Value
  | uint : Nat → Value
  | float : List Nat → Value
  | double : List Nat → Value
  | string : List Nat → Value
  | enum : Nat → Int → Value
  | bitmask : Nat → Nat → Value
  | array : List (Option Value) → Value
  | struct_ : Nat → List (Option Value) → Value
  | blob : List Nat → Value
  | pointer : Nat → Value
deriving Repr

/-- Modelled from the spec: Value::toSInt (trace_model.cpp is not part
of src).  Per spec section 9 the common query methods become total
accessors on the sum: signed, unsigned, boolean and enum values
convert to their signed integer content; for the remaining variants
the base-class fallback yields 0. -/
def Value.toSInt : Value → Int
  | .null => 0
  | .bool b => if b then 1 else 0
  | .sint v => v
  | .uint v => (v : Int)
  | .enum _ v => v
  | .bitmask _ v => (v : Int)
  | _ => 0

/-- FunctionSigState: id, name, argument names, call flags and the file
offset just after the signature body was first consumed
(Parser::FunctionSigState; num_args is arg_names.length). -/
structure FunctionSigState where
  id : Nat
  name : List Nat
  arg_names : List (List Nat)
  flags : Nat
  offset : Nat
deriving Repr, DecidableEq

/-- StructSigState: id, name, member names, first-seen offset. -/
structure StructSigState where
  id : Nat
  name : List Nat
  member_names : List (List Nat)
  offset : Nat
deriving Repr, DecidableEq

/-- EnumSigState: id, (name, value) pairs, first-seen offset. -/
structure EnumSigState where
  id : Nat
  values : List (List Nat × Int)
  offset : Nat
deriving Repr, DecidableEq

/-- BitmaskSigState: id, (name, value) pairs, first-seen offset. -/
structure BitmaskSigState where
  id : Nat
  flags : List (List Nat × Nat)
  offset : Nat
deriving Repr, DecidableEq

/-- A decoded call (trace::Call).  The sig field holds the function
signature id (a pointer to the interned signature in the source; ids
and interned signatures are in stable bijection within a session).
args is the argument vector, indexed by position, with unset slots
none (NULL in the source). -/
structure Call where
  no : Nat
  thread_id : Nat
  sig : Nat
  flags : Nat
  args : List (Option Value)
  ret : Option Value
  call_time : Option Value
deriving Repr

/-- The parser state: the byte stream (data, pos) standing for the File
backend, the trace version, the four signature tables (growable arrays
indexed by id, empty slots none), the cached glGetError signature id,
the next call number and the pending-call buffer (front = oldest). -/
structure St where
  data : List Nat
  pos : Nat
  version : Nat
  functions : List (Option FunctionSigState)
  structs : List (Option StructSigState)
  enums : List (Option EnumSigState)
  bitmasks : List (Option BitmaskSigState)
  glGetErrorSig : Option Nat
  next_call_no : Nat
  calls : List Call
deriving Repr

/-- Result of a parsing step: a value plus the successor state, or
fatal termination (exit(1) on an unknown tag in the source; fuel
exhaustion in this embedding). -/
inductive Res (α : Type) where
  | ok : α → St → Res α
  | fatal : Res α
deriving Repr

/-- file->getc(): returns the byte at pos and advances, or none at EOF. -/
def getc (s : St) : Option Nat × St :=
  if h : s.pos < s.data.length then
    (some (s.data.get ⟨s.pos, h⟩), { s with pos := s.pos + 1 })
  else
    (none, s)

/-- Parser::read_byte is a direct call to file->getc(). -/
def read_byte (s : St) : Option Nat × St :=
  getc s

/-- Replace the function signature table. -/
def setFunctions (m : List (Option FunctionSigState)) (s : St) : St :=
  { s with functions := m }

/-- Replace the struct signature table. -/
def setStructs (m : List (Option StructSigState)) (s : St) : St :=
  { s with structs := m }

/-- Replace the enum signature table. -/
def setEnums (m : List (Option EnumSigState)) (s : St) : St :=
  { s with enums := m }

/-- Replace the bitmask signature table. -/
def setBitmasks (m : List (Option BitmaskSigState)) (s : St) : St :=
  { s with bitmasks := m }

/-- Replace the cached glGetError signature id. -/
def setGlGetError (g : Option Nat) (s : St) : St :=
  { s with glGetErrorSig := g }

/-- Replace the next call number. -/
def setNcn (n : Nat) (s : St) : St :=
  { s with next_call_no := n }

/-- Replace the pending-call buffer. -/
def setCalls (l : List Call) (s : St) : St :=
  { s with calls := l }

/-- file->skip(n): advance the position by n, truncated at EOF. -/
def fskip (n : Nat) (s : St) : St :=
  { s with pos := s.pos + min n (s.data.length - s.pos) }

/-- file->read(buf, n): return the n bytes at pos (truncated at EOF)
and advance like skip. -/
def fread (n : Nat) (s : St) : List Nat × St :=
  ((s.data.drop s.pos).take n, fskip n s)

/-- The accumulation loop of Parser::read_uint over the remaining byte
suffix: little-endian base-128, value |= (c & 0x7f) << shift while the
top bit of c is set, stopping at EOF.  The accumulator is an unsigned
long long, so each accumulation is reduced mod 2^64.  Returns the
value and the number of bytes consumed. -/
def ruAux : List Nat → Nat → Nat → Nat × Nat
  | [], value, _ => (value, 0)
  | c :: rest, value, shift =>
    let value' := (value ||| ((c &&& 0x7f) <<< shift)) % 2 ^ 64
    if c &&& 0x80 ≠ 0 then
      let r := ruAux rest value' (shift + 7)
      (r.1, r.2 + 1)
    else
      (value', 1)

/-- Parser::read_uint: decode a varint at the current position. -/
def read_uint (s : St) : Nat × St :=
  let r := ruAux (s.data.drop s.pos) 0 0
  (r.1, { s with pos := s.pos + r.2 })

/-- The loop of Parser::skip_uint over the remaining byte suffix:
number of bytes consumed when skipping one varint. -/
def suAux : List Nat → Nat
  | [] => 0
  | c :: rest => if c &&& 0x80 ≠ 0 then suAux rest + 1 else 1

/-- Parser::skip_uint: skip a varint without materializing it. -/
def skip_uint (s : St) : St :=
  { s with pos := s.pos + suAux (s.data.drop s.pos) }

/-- Reduction to a 32-bit unsigned loop counter (the source stores
signature element counts in unsigned fields and iterates with
unsigned indices; the headers are not part of src, widths follow the
spec data model). -/
def u32 (n : Nat) : Nat := n % 2 ^ 32

/-- Iteration count of a loop `for (int i = 0; i < v; ++i)` where v is
a 64-bit count converted to int: values with bit 31 set convert to a
negative int, so the loop body never runs. -/
def s32Iters (n : Nat) : Nat :=
  if n % 2 ^ 32 < 2 ^ 31 then n % 2 ^ 32 else 0

/-- Conversion of an unsigned 64-bit value to signed long long
(twos-complement reinterpretation, as gcc implements it). -/
def toS64 (u : Nat) : Int :=
  if u % 2 ^ 64 < 2 ^ 63 then ((u % 2 ^ 64 : Nat) : Int)
  else ((u % 2 ^ 64 : Nat) : Int) - 2 ^ 64

/-- Unsigned 64-bit negation. -/
def negU64 (u : Nat) : Nat := (2 ^ 64 - u % 2 ^ 64) % 2 ^ 64

/-- The signed value produced from a decoded varint u by negation
(parse_sint builds SInt(-(signed long long)read_uint()); the negation
wraps in twos-complement arithmetic). -/
def sintOfUint (u : Nat) : Int := toS64 (negU64 u)

/-- Parser::read_sint: a tagged signed integer.  TYPE_SINT negates the
varint, TYPE_UINT takes it as is (converted to signed long long), EOF
yields 0, any other tag is fatal (exit(1)). -/
def read_sint (s : St) : Res Int :=
  match read_byte s with
  | (none, s) => .ok 0 s
  | (some c, s) =>
    if c = TYPE_SINT then
      let r := read_uint s
      .ok (sintOfUint r.1) r.2
    else if c = TYPE_UINT then
      let r := read_uint s
      .ok (toS64 r.1) r.2
    else
      .fatal

/-- Parser::skip_sint: skip_byte() then skip_uint(). -/
def skip_sint (s : St) : St :=
  skip_uint (fskip 1 s)

/-- Parser::read_string: varint length, then, when the length is
nonzero, file->read(value, (unsigned)len) raw bytes: the read length
is the 64-bit length truncated to 32 bits by the unsigned cast
(trace_parser.cpp line 768), and the read itself is truncated at EOF.
The appended NUL terminator of the source is not part of the byte
content. -/
def read_string (s : St) : List Nat × St :=
  let r := read_uint s
  if r.1 ≠ 0 then fread (u32 r.1) r.2 else ([], r.2)

/-- Parser::skip_string: varint length then skip that many bytes. -/
def skip_string (s : St) : St :=
  let r := read_uint s
  fskip r.1 r.2

/-- The lookup helper of trace_parser.cpp: look an id up in a growable
vector, resizing the vector to id+1 (filling with none) when the id
does not fit, and returning the slot content. -/
def lookup {α : Type} (map : List (Option α)) (index : Nat) :
    Option α × List (Option α) :=
  if map.length ≤ index then
    (none, map ++ List.replicate (index + 1 - map.length) none)
  else
    (map.getD index none, map)

/-- Read n length-prefixed strings (the argument-name and member-name
loops of the signature parsers). -/
def readStrings : Nat → St → List (List Nat) × St
  | 0, s => ([], s)
  | n + 1, s =>
    let r := read_string s
    let rs := readStrings n r.2
    (r.1 :: rs.1, rs.2)

/-- Skip n length-prefixed strings. -/
def skipStrings : Nat → St → St
  | 0, s => s
  | n + 1, s => skipStrings n (skip_string s)

/-- Read n (string, sint) pairs (the value loop of parse_enum_sig);
read_sint can be fatal on an unknown tag. -/
def readEnumValues : Nat → St → Res (List (List Nat × Int))
  | 0, s => .ok [] s
  | n + 1, s =>
    let r := read_string s
    match read_sint r.2 with
    | .ok v s =>
      match readEnumValues n s with
      | .ok vs s => .ok ((r.1, v) :: vs) s
      | .fatal => .fatal
    | .fatal => .fatal

/-- Skip n (string, sint) pairs (the skip branch of parse_enum_sig). -/
def skipNameSint : Nat → St → St
  | 0, s => s
  | n + 1, s => skipNameSint n (skip_sint (skip_string s))

/-- Read n (string, uint) pairs (the flag loop of parse_bitmask_sig;
the zero-but-not-first warning is a diagnostic with no state effect). -/
def readFlags : Nat → St → List (List Nat × Nat) × St
  | 0, s => ([], s)
  | n + 1, s =>
    let r := read_string s
    let v := read_uint r.2
    let rest := readFlags n v.2
    ((r.1, v.1) :: rest.1, rest.2)

/-- Skip n (string, uint) pairs (the skip branch of parse_bitmask_sig). -/
def skipNameUint : Nat → St → St
  | 0, s => s
  | n + 1, s => skipNameUint n (skip_uint (skip_string s))

/-- The byte content of the name "glGetError". -/
def glGetErrorName : List Nat :=
  [103, 108, 71, 101, 116, 69, 114, 114, 111, 114]

/-- Parser::parse_function_sig.  lcf is the external
lookupCallFlags name-to-flags table (an out-of-scope collaborator per
spec section 1).  On a first sighting the body is decoded, the
first-seen offset recorded, the signature interned, and the glGetError
signature cached when it matches; on a repeat sighting at an offset
below the first-seen offset the body is skipped; otherwise only the id
is consumed. -/
def parse_function_sig (lcf : List Nat → Nat) (s : St) :
    FunctionSigState × St :=
  let r := read_uint s
  let id := r.1
  let lk := lookup r.2.functions id
  let s := setFunctions lk.2 r.2
  match lk.1 with
  | none =>
    let rn := read_string s
    let ra := read_uint rn.2
    let num_args := u32 ra.1
    let rs := readStrings num_args ra.2
    let s := rs.2
    let sig : FunctionSigState :=
      { id := id, name := rn.1, arg_names := rs.1, flags := lcf rn.1,
        offset := s.pos }
    let s := setFunctions (s.functions.set id (some sig)) s
    let s :=
      if num_args = 0 ∧ rn.1 = glGetErrorName then
        setGlGetError (some id) s
      else s
    (sig, s)
  | some sig =>
    if s.pos < sig.offset then
      let s := skip_string s
      let ra := read_uint s
      let s := skipStrings (u32 ra.1) ra.2
      (sig, s)
    else
      (sig, s)

/-- Parser::parse_struct_sig: same structure as parse_function_sig
without flags and without the glGetError cache. -/
def parse_struct_sig (s : St) : StructSigState × St :=
  let r := read_uint s
  let id := r.1
  let lk := lookup r.2.structs id
  let s := setStructs lk.2 r.2
  match lk.1 with
  | none =>
    let rn := read_string s
    let rm := read_uint rn.2
    let num_members := u32 rm.1
    let rs := readStrings num_members rm.2
    let s := rs.2
    let sig : StructSigState :=
      { id := id, name := rn.1, member_names := rs.1, offset := s.pos }
    (sig, setStructs (s.structs.set id (some sig)) s)
  | some sig =>
    if s.pos < sig.offset then
      let s := skip_string s
      let rm := read_uint s
      let s := skipStrings (u32 rm.1) rm.2
      (sig, s)
    else
      (sig, s)

/-- Parser::parse_enum_sig (trace version 3 and newer): body is a
count followed by (name, sint) pairs.  The skip branch iterates an int
counter, so a count with bit 31 set skips nothing. -/
def parse_enum_sig (s : St) : Res EnumSigState :=
  let r := read_uint s
  let id := r.1
  let lk := lookup r.2.enums id
  let s := setEnums lk.2 r.2
  match lk.1 with
  | none =>
    let rv := read_uint s
    match readEnumValues (u32 rv.1) rv.2 with
    | .ok values s =>
      let sig : EnumSigState := { id := id, values := values, offset := s.pos }
      .ok sig (setEnums (s.enums.set id (some sig)) s)
    | .fatal => .fatal
  | some sig =>
    if s.pos < sig.offset then
      let rv := read_uint s
      .ok sig (skipNameSint (s32Iters rv.1) rv.2)
    else
      .ok sig s

/-- Parser::parse_bitmask_sig: body is a count followed by
(name, uint) pairs; skip branch iterates an int counter. -/
def parse_bitmask_sig (s : St) : BitmaskSigState × St :=
  let r := read_uint s
  let id := r.1
  let lk := lookup r.2.bitmasks id
  let s := setBitmasks lk.2 r.2
  match lk.1 with
  | none =>
    let rf := read_uint s
    let rs := readFlags (u32 rf.1) rf.2
    let s := rs.2
    let sig : BitmaskSigState := { id := id, flags := rs.1, offset := s.pos }
    (sig, setBitmasks (s.bitmasks.set id (some sig)) s)
  | some sig =>
    if s.pos < sig.offset then
      let rf := read_uint s
      (sig, skipNameUint (s32Iters rf.1) rf.2)
    else
      (sig, s)

mutual

/-- Parser::scan_value: advance the stream over one tagged value
without building a value tree.  The enum, bitmask and struct cases go
through the signature parsers exactly as parse_value does. -/
def scan_value : Nat → St → Res Unit
  | 0, _ => .fatal
  | fuel + 1, s =>
    match read_byte s with
    | (none, s) => .ok () s
    | (some c, s) =>
      if c = TYPE_NULL then .ok () s
      else if c = TYPE_FALSE then .ok () s
      else if c = TYPE_TRUE then .ok () s
      else if c = TYPE_SINT then .ok () (skip_uint s)
      else if c = TYPE_UINT then .ok () (skip_uint s)
      else if c = TYPE_FLOAT then .ok () (fskip 4 s)
      else if c = TYPE_DOUBLE then .ok () (fskip 8 s)
      else if c = TYPE_STRING then .ok () (skip_string s)
      else if c = TYPE_ENUM then
        -- scan_enum
        if 3 ≤ s.version then
          match parse_enum_sig s with
          | .ok _ s => .ok () (skip_sint s)
          | .fatal => .fatal
        else
          match parse_old_enum_sig fuel s with
          | .ok _ s => .ok () s
          | .fatal => .fatal
      else if c = TYPE_BITMASK then
        -- scan_bitmask
        let r := parse_bitmask_sig s
        .ok () (skip_uint r.2)
      else if c = TYPE_ARRAY then
        -- scan_array
        let r := read_uint s
        scan_values fuel r.1 r.2
      else if c = TYPE_STRUCT then
        -- scan_struct
        let r := parse_struct_sig s
        scan_values fuel r.1.member_names.length r.2
      else if c = TYPE_BLOB then
        -- scan_blob
        let r := read_uint s
        .ok () (if r.1 ≠ 0 then fskip r.1 r.2 else r.2)
      else if c = TYPE_POINTER then
        -- scan the address varint
        .ok () (skip_uint s)
      else
        .fatal

/-- The element loop of Parser::scan_array and scan_struct. -/
def scan_values : Nat → Nat → St → Res Unit
  | 0, _, _ => .fatal
  | _ + 1, 0, s => .ok () s
  | fuel + 1, n + 1, s =>
    match scan_value fuel s with
    | .ok _ s => scan_values fuel n s
    | .fatal => .fatal

/-- Parser::parse_old_enum_sig (trace version below 3): the body is a
single (name, sint) pair.  The skip branch of a retransmission skips
the name and then structurally scans the value. -/
def parse_old_enum_sig : Nat → St → Res EnumSigState
  | 0, _ => .fatal
  | fuel + 1, s =>
    let r := read_uint s
    let id := r.1
    let lk := lookup r.2.enums id
    let s := setEnums lk.2 r.2
    match lk.1 with
    | none =>
      let rn := read_string s
      match read_sint rn.2 with
      | .ok v s =>
        let sig : EnumSigState :=
          { id := id, values := [(rn.1, v)], offset := s.pos }
        .ok sig (setEnums (s.enums.set id (some sig)) s)
      | .fatal => .fatal
    | some sig =>
      if s.pos < sig.offset then
        let s := skip_string s
        match scan_value fuel s with
        | .ok _ s => .ok sig s
        | .fatal => .fatal
      else
        .ok sig s

end

mutual

/-- Parser::parse_value: read a type tag byte and decode the matching
value.  EOF at the tag yields none (a null value); an unknown tag is
fatal.  The per-type helpers (parse_sint, parse_uint, parse_float,
parse_double, parse_string, parse_enum, parse_bitmask, parse_array,
parse_struct, parse_blob and the pointer case) are inlined here; each
case is a faithful transcription of the corresponding source
function. -/
def parse_value : Nat → St → Res (Option Value)
  | 0, _ => .fatal
  | fuel + 1, s =>
    match read_byte s with
    | (none, s) => .ok none s
    | (some c, s) =>
      if c = TYPE_NULL then .ok (some .null) s
      else if c = TYPE_FALSE then .ok (some (.bool false)) s
      else if c = TYPE_TRUE then .ok (some (.bool true)) s
      else if c = TYPE_SINT then
        -- parse_sint: SInt(-(signed long long)read_uint())
        let r := read_uint s
        .ok (some (.sint (sintOfUint r.1))) r.2
      else if c = TYPE_UINT then
        -- parse_uint: UInt(read_uint())
        let r := read_uint s
        .ok (some (.uint r.1)) r.2
      else if c = TYPE_FLOAT then
        -- parse_float: 4 raw bytes
        let r := fread 4 s
        .ok (some (.float r.1)) r.2
      else if c = TYPE_DOUBLE then
        -- parse_double: 8 raw bytes
        let r := fread 8 s
        .ok (some (.double r.1)) r.2
      else if c = TYPE_STRING then
        -- parse_string: String(read_string())
        let r := read_string s
        .ok (some (.string r.1)) r.2
      else if c = TYPE_ENUM then
        -- parse_enum: version split between new and old enum signatures
        if 3 ≤ s.version then
          match parse_enum_sig s with
          | .ok sig s =>
            match read_sint s with
            | .ok v s => .ok (some (.enum sig.id v)) s
            | .fatal => .fatal
          | .fatal => .fatal
        else
          match parse_old_enum_sig fuel s with
          | .ok sig s =>
            -- value taken from the single entry of the old signature
            .ok (some (.enum sig.id (sig.values.headD ([], 0)).2)) s
          | .fatal => .fatal
      else if c = TYPE_BITMASK then
        -- parse_bitmask
        let rsig := parse_bitmask_sig s
        let rv := read_uint rsig.2
        .ok (some (.bitmask rsig.1.id rv.1)) rv.2
      else if c = TYPE_ARRAY then
        -- parse_array
        let r := read_uint s
        match parse_values fuel r.1 r.2 with
        | .ok vs s => .ok (some (.array vs)) s
        | .fatal => .fatal
      else if c = TYPE_STRUCT then
        -- parse_struct
        let rsig := parse_struct_sig s
        match parse_values fuel rsig.1.member_names.length rsig.2 with
        | .ok vs s => .ok (some (.struct_ rsig.1.id vs)) s
        | .fatal => .fatal
      else if c = TYPE_BLOB then
        -- parse_blob: file->read(blob->buf, (unsigned)size) truncates
        -- the 64-bit size to 32 bits (trace_parser.cpp line 718)
        let r := read_uint s
        let rb := if r.1 ≠ 0 then fread (u32 r.1) r.2 else ([], r.2)
        .ok (some (.blob rb.1)) rb.2
      else if c = TYPE_POINTER then
        -- parse the pointer address varint
        let r := read_uint s
        .ok (some (.pointer r.1)) r.2
      else
        .fatal

/-- The element loop of Parser::parse_array and parse_struct: decode n
values in sequence (elements hit by EOF are stored as none). -/
def parse_values : Nat → Nat → St → Res (List (Option Value))
  | 0, _, _ => .fatal
  | _ + 1, 0, s => .ok [] s
  | fuel + 1, n + 1, s =>
    match parse_value fuel s with
    | .ok v s =>
      match parse_values fuel n s with
      | .ok vs s => .ok (v :: vs) s
      | .fatal => .fatal
    | .fatal => .fatal

end

mutual

/-- A bounds-checked variant of scan_value used to state when scanning
and parsing advance identically: it walks the stream exactly as
scan_value does but fails on any string or blob whose decoded length
field does not fit 32 bits.  On such lengths the parse side reads only
length mod 2^32 bytes (the unsigned casts of file->read at
trace_parser.cpp lines 718 and 768) while the scan side skips the full
length, so the two offsets diverge; scan_value32 succeeding certifies
that no such length field is encountered. -/
def scan_value32 : Nat → St → Res Unit
  | 0, _ => .fatal
  | fuel + 1, s =>
    match read_byte s with
    | (none, s) => .ok () s
    | (some c, s) =>
      if c = TYPE_NULL then .ok () s
      else if c = TYPE_FALSE then .ok () s
      else if c = TYPE_TRUE then .ok () s
      else if c = TYPE_SINT then .ok () (skip_uint s)
      else if c = TYPE_UINT then .ok () (skip_uint s)
      else if c = TYPE_FLOAT then .ok () (fskip 4 s)
      else if c = TYPE_DOUBLE then .ok () (fskip 8 s)
      else if c = TYPE_STRING then
        let r := read_uint s
        if r.1 < 2 ^ 32 then .ok () (fskip r.1 r.2) else .fatal
      else if c = TYPE_ENUM then
        if 3 ≤ s.version then
          match parse_enum_sig s with
          | .ok _ s => .ok () (skip_sint s)
          | .fatal => .fatal
        else
          match parse_old_enum_sig fuel s with
          | .ok _ s => .ok () s
          | .fatal => .fatal
      else if c = TYPE_BITMASK then
        let r := parse_bitmask_sig s
        .ok () (skip_uint r.2)
      else if c = TYPE_ARRAY then
        let r := read_uint s
        scan_values32 fuel r.1 r.2
      else if c = TYPE_STRUCT then
        let r := parse_struct_sig s
        scan_values32 fuel r.1.member_names.length r.2
      else if c = TYPE_BLOB then
        let r := read_uint s
        if r.1 < 2 ^ 32 then
          .ok () (if r.1 ≠ 0 then fskip r.1 r.2 else r.2)
        else .fatal
      else if c = TYPE_POINTER then
        .ok () (skip_uint s)
      else
        .fatal

/-- The element loop of the bounds-checked scan. -/
def scan_values32 : Nat → Nat → St → Res Unit
  | 0, _, _ => .fatal
  | _ + 1, 0, s => .ok () s
  | fuel + 1, n + 1, s =>
    match scan_value32 fuel s with
    | .ok _ s => scan_values32 fuel n s
    | .fatal => .fatal

end

/-- Parser::adjust_call_flags: mark glGetError() = GL_NO_ERROR calls
as verbose.  gid is the cached glGetError signature id (none when the
cache is the null pointer).  The condition is pointer equality of the
call signature with the cache, a present return value, and toSInt of
that return value being 0. -/
def adjust_call_flags (gid : Option Nat) (call : Call) : Call :=
  if gid = some call.sig ∧ call.ret.map Value.toSInt = some 0 then
    { call with flags := call.flags ||| CALL_FLAG_VERBOSE }
  else
    call

/-- The argument store of Parser::parse_arg: grow the argument vector
to index+1 when needed (new slots NULL) and set slot index. -/
def setArg (args : List (Option Value)) (index : Nat) (v : Value) :
    List (Option Value) :=
  let args :=
    if args.length ≤ index then
      args ++ List.replicate (index + 1 - args.length) none
    else args
  args.set index (some v)

/-- Parser::parse_call_details: loop over detail records until
CALL_END (returns the completed call), EOF (returns none, the caller
discards the call) or an unknown tag (fatal).  CALL_ARG reads an
unsigned index and a value and stores non-null values; CALL_RET
stores the value as the return value. -/
def parse_call_details : Nat → Call → St → Res (Option Call)
  | 0, _, _ => .fatal
  | fuel + 1, call, s =>
    match read_byte s with
    | (none, s) => .ok none s
    | (some c, s) =>
      if c = CALL_END then .ok (some call) s
      else if c = CALL_ARG then
        -- parse_arg
        let r := read_uint s
        let index := u32 r.1
        match parse_value fuel r.2 with
        | .ok v s =>
          let call :=
            match v with
            | some value => { call with args := setArg call.args index value }
            | none => call
          parse_call_details fuel call s
        | .fatal => .fatal
      else if c = CALL_RET then
        match parse_value fuel s with
        | .ok v s => parse_call_details fuel { call with ret := v } s
        | .fatal => .fatal
      else
        .fatal

/-- Parser::parse_enter: read the thread id (version 4 and newer),
parse the function signature, allocate a call numbered
next_call_no++ and run the detail loop; on success append the call to
the pending buffer, otherwise discard it. -/
def parse_enter (lcf : List Nat → Nat) (fuel : Nat) (s : St) : Res Unit :=
  let rt := if 4 ≤ s.version then
      (let r := read_uint s; (u32 r.1, r.2))
    else (0, s)
  let rsig := parse_function_sig lcf rt.2
  let sig := rsig.1
  let s := rsig.2
  let call : Call :=
    { no := s.next_call_no, thread_id := rt.1, sig := sig.id,
      flags := sig.flags, args := [], ret := none, call_time := none }
  let s := setNcn (s.next_call_no + 1) s
  match parse_call_details fuel call s with
  | .ok (some call) s => .ok () (setCalls (s.calls ++ [call]) s)
  | .ok none s => .ok () s
  | .fatal => .fatal

/-- The linear scan of Parser::parse_leave over the pending-call
buffer: find the first call with the given number and remove it. -/
def extractCall : List Call → Nat → Option (Call × List Call)
  | [], _ => none
  | c :: rest, n =>
    if c.no = n then some (c, rest)
    else
      match extractCall rest n with
      | some (c', rest') => some (c', c :: rest')
      | none => none

/-- Parser::parse_leave: read the timing value (a varint-backed UInt)
and the call number, unlink the matching pending call (returning none
when there is none), assign call_time and run the detail loop. -/
def parse_leave (fuel : Nat) (s : St) : Res (Option Call) :=
  let rt := read_uint s
  let call_time := Value.uint rt.1
  let rn := read_uint rt.2
  let call_no := u32 rn.1
  let s := rn.2
  match extractCall s.calls call_no with
  | none => .ok none s
  | some (call, rest) =>
    let s := setCalls rest s
    let call := { call with call_time := some call_time }
    parse_call_details fuel call s

/-- Parser::parse_call: loop over ENTER events, return the adjusted
call at a LEAVE, and at EOF surface the oldest pending call marked
CALL_FLAG_INCOMPLETE (or none when nothing is pending).  When
parse_leave produces a null call the source passes it to
adjust_call_flags, which dereferences the null pointer; that
undefined behavior is modelled as fatal. -/
def parse_call (lcf : List Nat → Nat) : Nat → St → Res (Option Call)
  | 0, _ => .fatal
  | fuel + 1, s =>
    match read_byte s with
    | (none, s) =>
      match s.calls with
      | [] => .ok none s
      | call :: rest =>
        let call := { call with flags := call.flags ||| CALL_FLAG_INCOMPLETE }
        let s := setCalls rest s
        .ok (some (adjust_call_flags s.glGetErrorSig call)) s
    | (some c, s) =>
      if c = EVENT_ENTER then
        match parse_enter lcf fuel s with
        | .ok _ s => parse_call lcf fuel s
        | .fatal => .fatal
      else if c = EVENT_LEAVE then
        match parse_leave fuel s with
        | .ok (some call) s =>
          .ok (some (adjust_call_flags s.glGetErrorSig call)) s
        | .ok none _ =>
          -- adjust_call_flags(NULL): null-pointer dereference
          .fatal
        | .fatal => .fatal
      else
        .fatal

/-- ParseBookmark: the (offset, next_call_no) pair of spec section 3. -/
structure ParseBookmark where
  offset : Nat
  next_call_no : Nat
deriving Repr, DecidableEq

/-- Parser::getBookmark. -/
def getBookmark (s : St) : ParseBookmark :=
  { offset := s.pos, next_call_no := s.next_call_no }

/-- Parser::setBookmark: seek to the saved offset, restore
next_call_no, and drop all pending calls. -/
def setBookmark (b : ParseBookmark) (s : St) : St :=
  { s with pos := b.offset, next_call_no := b.next_call_no, calls := [] }

/-- Modelled from the spec, sections 4.2 and 8: the canonical
little-endian base-128 encoder of the tracer (the writer side is not
part of src).  The fuel argument (10 bytes suffice for any 64-bit
value) keeps the definition structurally recursive. -/
def encAux : Nat → Nat → List Nat
  | 0, u => [u % 128]
  | f + 1, u => if u < 128 then [u] else (u % 128 + 128) :: encAux f (u / 128)

/-- Modelled from the spec: the varint encoding of an unsigned 64-bit
integer. -/
def enc (u : Nat) : List Nat := encAux 10 u

/-- Modelled from the spec, section 6: the wire encoding of a
length-prefixed string. -/
def encString (str : List Nat) : List Nat := enc str.length ++ str

/-- Modelled from the spec, section 6: the wire encoding of a tagged
signed integer (TYPE_SINT tag with the negated magnitude for negative
values, TYPE_UINT tag otherwise). -/
def encSint (v : Int) : List Nat :=
  if v < 0 then TYPE_SINT :: enc (-v).toNat else TYPE_UINT :: enc v.toNat

/-- The concatenated encodings of a list of strings. -/
def encStrings (strs : List (List Nat)) : List Nat :=
  (strs.map encString).flatten

/-- Modelled from the spec, section 6: the body of a function
signature after its id (name, argument count, argument names). -/
def encFunBody (name : List Nat) (args : List (List Nat)) : List Nat :=
  encString name ++ enc args.length ++ encStrings args

/-- Modelled from the spec, section 6: the body of a struct signature
after its id. -/
def encStructBody (name : List Nat) (members : List (List Nat)) : List Nat :=
  encString name ++ enc members.length ++ encStrings members

/-- Modelled from the spec, section 6: the body of an enum signature
after its id (count, then name and signed value pairs). -/
def encEnumBody (values : List (List Nat × Int)) : List Nat :=
  enc values.length ++ (values.map (fun p => encString p.1 ++ encSint p.2)).flatten

/-- Modelled from the spec, section 6: the body of a bitmask signature
after its id (count, then name and unsigned value pairs). -/
def encBitmaskBody (flags : List (List Nat × Nat)) : List Nat :=
  enc flags.length ++ (flags.map (fun p => encString p.1 ++ enc p.2)).flatten

/-- Advancing the stream by n bytes with everything else unchanged. -/
def advance (n : Nat) (s : St) : St := { s with pos := s.pos + n }

theorem advance_advance (m n : Nat) (s : St) :
    advance n (advance m s) = advance (m + n) s := by
  simp [advance, Nat.add_assoc]

theorem advance_zero (s : St) : advance 0 s = s := rfl

theorem advance_pos (n : Nat) (s : St) : (advance n s).pos = s.pos + n := rfl

theorem drop_advance (n : Nat) (s : St) :
    (advance n s).data.drop (advance n s).pos = s.data.drop (s.pos + n) := rfl

theorem drop_append_of_drop {s : St} {xs rest : List Nat}
    (h : s.data.drop s.pos = xs ++ rest) :
    s.data.drop (s.pos + xs.length) = rest := by
  have h2 : (s.data.drop s.pos).drop xs.length = s.data.drop (s.pos + xs.length) := by
    rw [List.drop_drop, Nat.add_comm]
  rw [← h2, h, List.drop_left]

theorem read_byte_none {s s' : St} (h : read_byte s = (none, s')) :
    s' = s ∧ s.data.length ≤ s.pos := by
  unfold read_byte getc at h
  split at h
  · simp at h
  · exact ⟨(Prod.mk.injEq _ _ _ _ ▸ h).2.symm, by omega⟩

theorem read_byte_some {s s' : St} {c : Nat} (h : read_byte s = (some c, s')) :
    s' = { s with pos := s.pos + 1 } ∧ s.pos < s.data.length := by
  unfold read_byte getc at h
  split at h
  next hlt =>
    refine ⟨?_, hlt⟩
    exact ((Prod.mk.injEq _ _ _ _).mp h).2.symm
  · simp at h

theorem read_byte_of_drop {s : St} {c : Nat} {rest : List Nat}
    (h : s.data.drop s.pos = c :: rest) :
    read_byte s = (some c, advance 1 s) := by
  have hlt : s.pos < s.data.length := by
    by_contra hge
    rw [List.drop_eq_nil_of_le (by omega)] at h
    exact List.noConfusion h
  have hc : s.data.get ⟨s.pos, hlt⟩ = c := by
    have h0 : (s.data.drop s.pos)[0]? = some c := by rw [h]; simp
    rw [List.getElem?_drop] at h0
    simpa [List.getElem?_eq_getElem hlt, List.get_eq_getElem] using h0
  unfold read_byte getc
  rw [dif_pos hlt, hc]
  rfl

theorem read_byte_none_of_drop {s : St} (h : s.data.length ≤ s.pos) :
    read_byte s = (none, s) := by
  unfold read_byte getc
  rw [dif_neg (by omega)]

theorem fskip_of_drop {s : St} {xs rest : List Nat}
    (h : s.data.drop s.pos = xs ++ rest) :
    fskip xs.length s = advance xs.length s := by
  have hlen : xs.length ≤ s.data.length - s.pos := by
    have := congrArg List.length h
    simp [List.length_drop] at this
    omega
  simp [fskip, advance, Nat.min_eq_left hlen]

theorem fread_of_drop {s : St} {xs rest : List Nat}
    (h : s.data.drop s.pos = xs ++ rest) :
    fread xs.length s = (xs, advance xs.length s) := by
  simp [fread, h, fskip_of_drop h, List.take_left]

theorem and_127_eq_mod (n : Nat) : n &&& 127 = n % 128 := by
  have h : (127 : Nat) = 2 ^ 7 - 1 := by norm_num
  rw [h, Nat.and_pow_two_sub_one_eq_mod]

theorem testBit7_false {n : Nat} (h : n < 128) : n.testBit 7 = false := by
  rw [Nat.testBit_to_div_mod]
  simp only [decide_eq_false_iff_not]
  omega

theorem testBit7_true {n : Nat} (h : n < 128) : (n + 2 ^ 7).testBit 7 = true := by
  rw [Nat.testBit_to_div_mod]
  simp only [decide_eq_true_eq]
  have h2 : (2 : Nat) ^ 7 = 128 := by norm_num
  rw [h2]
  omega

theorem and_128_of_lt {n : Nat} (h : n < 128) : n &&& 128 = 0 := by
  have h2 : (128 : Nat) = 2 ^ 7 := by norm_num
  rw [h2, Nat.and_two_pow, testBit7_false h]
  simp

theorem and_128_of_cont {n : Nat} (h : n < 128) : (n + 128) &&& 128 = 128 := by
  have h2 : (128 : Nat) = 2 ^ 7 := by norm_num
  rw [h2, Nat.and_two_pow, testBit7_true h]
  simp

theorem shiftLeft_split (u shift : Nat) :
    u <<< shift = ((u % 128) <<< shift) ||| ((u / 128) <<< (shift + 7)) := by
  have h128 : (128 : Nat) = 2 ^ 7 := by norm_num
  have hdiv : u / 128 = u >>> 7 := by
    rw [h128, ← Nat.shiftRight_eq_div_pow]
  apply Nat.eq_of_testBit_eq
  intro j
  rw [Nat.testBit_lor, Nat.testBit_shiftLeft, Nat.testBit_shiftLeft,
    Nat.testBit_shiftLeft, hdiv, Nat.testBit_shiftRight, h128,
    Nat.testBit_mod_two_pow]
  by_cases hj : shift ≤ j
  · by_cases hj7 : shift + 7 ≤ j
    · have e1 : 7 + (j - (shift + 7)) = j - shift := by omega
      have e2 : ¬ (j - shift < 7) := by omega
      simp [hj, hj7, e1, e2]
    · have e2 : j - shift < 7 := by omega
      simp [hj, hj7, e2]
  · have h2 : ¬ (shift + 7 ≤ j) := by omega
    simp [hj, h2]

theorem ruAux_encAux :
    ∀ f u value shift rest, u < 128 ^ (f + 1) → value < 2 ^ 64 →
      u <<< shift < 2 ^ 64 →
      ruAux (encAux f u ++ rest) value shift =
        (value ||| (u <<< shift), (encAux f u).length) := by
  intro f
  induction f with
  | zero =>
    intro u value shift rest hu hv hs
    have hlt : u < 128 := by simpa using hu
    have hu' : u % 128 = u := Nat.mod_eq_of_lt hlt
    simp only [encAux, hu', List.cons_append, List.nil_append, ruAux]
    rw [and_127_eq_mod, hu', and_128_of_lt hlt]
    simp only [ne_eq, not_true_eq_false, ite_false, if_neg, not_not]
    rw [Nat.mod_eq_of_lt (Nat.or_lt_two_pow hv hs)]
    simp
  | succ f ih =>
    intro u value shift rest hu hv hs
    by_cases hsmall : u < 128
    · have hu' : u % 128 = u := Nat.mod_eq_of_lt hsmall
      simp only [encAux, if_pos hsmall, List.cons_append, List.nil_append, ruAux]
      rw [and_127_eq_mod, hu', and_128_of_lt hsmall]
      simp only [ne_eq, not_true_eq_false, ite_false, if_neg, not_not]
      rw [Nat.mod_eq_of_lt (Nat.or_lt_two_pow hv hs)]
      simp
    · simp only [encAux, if_neg hsmall, List.cons_append, ruAux]
      rw [and_127_eq_mod]
      have hmm : (u % 128 + 128) % 128 = u % 128 := by omega
      have hcont := and_128_of_cont (Nat.mod_lt u (by norm_num))
      rw [hmm, hcont]
      have hmono : (u % 128) <<< shift ≤ u <<< shift := by
        rw [Nat.shiftLeft_eq, Nat.shiftLeft_eq]
        exact Nat.mul_le_mul_right _ (Nat.mod_le u 128)
      have hvalue' : value ||| ((u % 128) <<< shift) < 2 ^ 64 :=
        Nat.or_lt_two_pow hv (lt_of_le_of_lt hmono hs)
      rw [Nat.mod_eq_of_lt hvalue']
      have hdivlt : u / 128 < 128 ^ (f + 1) := by
        rw [Nat.div_lt_iff_lt_mul (by norm_num : (0:Nat) < 128)]
        calc u < 128 ^ (f + 1 + 1) := hu
        _ = 128 ^ (f + 1) * 128 := by rw [pow_succ]
      have hshift : (u / 128) <<< (shift + 7) ≤ u <<< shift := by
        rw [Nat.shiftLeft_eq, Nat.shiftLeft_eq, pow_add]
        calc u / 128 * (2 ^ shift * 2 ^ 7) = (u / 128 * 2 ^ 7) * 2 ^ shift := by ring
        _ ≤ u * 2 ^ shift := by
            apply Nat.mul_le_mul_right
            calc u / 128 * 2 ^ 7 = u / 128 * 128 := by norm_num
            _ ≤ u := Nat.div_mul_le_self u 128
      rw [ih (u / 128) _ (shift + 7) rest hdivlt hvalue' (lt_of_le_of_lt hshift hs)]
      rw [if_pos (by norm_num : (128 : Nat) ≠ 0), Nat.or_assoc, ← shiftLeft_split]
      simp

theorem ruAux_enc {u : Nat} (hu : u < 2 ^ 64) (rest : List Nat) :
    ruAux (enc u ++ rest) 0 0 = (u, (enc u).length) := by
  have hb : u < 128 ^ 11 := by
    calc u < 2 ^ 64 := hu
    _ ≤ 128 ^ 11 := by norm_num
  have h := ruAux_encAux 10 u 0 0 rest hb (by norm_num) (by simpa using hu)
  simpa [enc] using h

theorem read_uint_of_drop {s : St} {u : Nat} {rest : List Nat}
    (hu : u < 2 ^ 64) (h : s.data.drop s.pos = enc u ++ rest) :
    read_uint s = (u, advance (enc u).length s) := by
  simp [read_uint, h, ruAux_enc hu, advance]

theorem suAux_encAux : ∀ f u rest, suAux (encAux f u ++ rest) = (encAux f u).length := by
  intro f
  induction f with
  | zero =>
    intro u rest
    simp only [encAux, List.cons_append, List.nil_append, suAux]
    rw [and_128_of_lt (Nat.mod_lt u (by norm_num))]
    simp
  | succ f ih =>
    intro u rest
    by_cases hsmall : u < 128
    · simp only [encAux, if_pos hsmall, List.cons_append, List.nil_append, suAux]
      rw [and_128_of_lt hsmall]
      simp
    · simp only [encAux, if_neg hsmall, List.cons_append, suAux]
      rw [and_128_of_cont (Nat.mod_lt u (by norm_num))]
      rw [if_pos (by norm_num : (128 : Nat) ≠ 0), ih]
      simp

theorem suAux_enc (u : Nat) (rest : List Nat) :
    suAux (enc u ++ rest) = (enc u).length :=
  suAux_encAux 10 u rest

theorem skip_uint_of_drop {s : St} {u : Nat} {rest : List Nat}
    (h : s.data.drop s.pos = enc u ++ rest) :
    skip_uint s = advance (enc u).length s := by
  simp [skip_uint, h, suAux_enc, advance]

theorem ruAux_snd_eq_suAux : ∀ bs value shift, (ruAux bs value shift).2 = suAux bs := by
  intro bs
  induction bs with
  | nil => intro value shift; rfl
  | cons c rest ih =>
    intro value shift
    simp only [ruAux, suAux]
    split
    · simp [ih]
    · rfl

theorem read_uint_snd (s : St) : (read_uint s).2 = skip_uint s := by
  simp [read_uint, skip_uint, ruAux_snd_eq_suAux]

theorem fskip_zero (s : St) : fskip 0 s = s := by
  simp [fskip]

theorem fread_zero (s : St) : fread 0 s = ([], s) := by
  simp [fread, fskip_zero]

/-- When the decoded length fits 32 bits, the unsigned cast of
file->read is the identity and read_string lands on the same offset
skip_string does.  For larger lengths the two diverge: read_string
reads only length mod 2^32 bytes while skip_string skips the full
length. -/
theorem read_string_snd_of_lt (s : St) (hlt : (read_uint s).1 < 2 ^ 32) :
    (read_string s).2 = skip_string s := by
  simp only [read_string, skip_string]
  have hu : u32 (read_uint s).1 = (read_uint s).1 := Nat.mod_eq_of_lt hlt
  by_cases hz : (read_uint s).1 ≠ 0
  · rw [if_pos hz, hu]
    rfl
  · push_neg at hz
    rw [if_neg (by simp [hz]), hz, fskip_zero]

theorem skip_string_of_drop {s : St} {str rest : List Nat}
    (hlen : str.length < 2 ^ 64) (h : s.data.drop s.pos = encString str ++ rest) :
    skip_string s = advance (encString str).length s := by
  rw [encString, List.append_assoc] at h
  have h1 := read_uint_of_drop hlen h
  have h2 : (advance (enc str.length).length s).data.drop
      (advance (enc str.length).length s).pos = str ++ rest := by
    rw [drop_advance]
    exact drop_append_of_drop h
  rw [skip_string, h1]
  have h3 := fskip_of_drop h2
  rw [h3, advance_advance, encString, List.length_append]


theorem skip_sint_of_drop {s : St} {b u : Nat} {rest : List Nat}
    (h : s.data.drop s.pos = b :: enc u ++ rest) :
    skip_sint s = advance (1 + (enc u).length) s := by
  have h1 : fskip 1 s = advance 1 s := by
    have := @fskip_of_drop s [b] (enc u ++ rest) (by simpa using h)
    simpa using this
  have h2 : (advance 1 s).data.drop (advance 1 s).pos = enc u ++ rest := by
    rw [drop_advance]
    have := @drop_append_of_drop s [b] (enc u ++ rest) (by simpa using h)
    simpa using this
  rw [skip_sint, h1, skip_uint_of_drop h2, advance_advance]

theorem skipStrings_of_drop :
    ∀ (strs : List (List Nat)) (rest : List Nat) (s : St),
      (∀ x ∈ strs, x.length < 2 ^ 64) →
      s.data.drop s.pos = encStrings strs ++ rest →
      skipStrings strs.length s = advance (encStrings strs).length s := by
  intro strs
  induction strs with
  | nil => intro rest s _ _; simp [skipStrings, encStrings, advance_zero]
  | cons str strs ih =>
    intro rest s hlen h
    rw [encStrings, List.map_cons, List.flatten_cons, List.append_assoc] at h
    have h1 := skip_string_of_drop (hlen str (by simp)) h
    have h2 : (advance (encString str).length s).data.drop
        (advance (encString str).length s).pos = encStrings strs ++ rest := by
      rw [drop_advance]
      exact drop_append_of_drop h
    simp only [List.length_cons, skipStrings, h1]
    rw [ih rest _ (fun x hx => hlen x (by simp [hx])) h2, advance_advance]
    simp [encStrings, List.length_append]

theorem skipNameSint_of_drop :
    ∀ (values : List (List Nat × Int)) (rest : List Nat) (s : St),
      (∀ p ∈ values, p.1.length < 2 ^ 64) →
      s.data.drop s.pos =
        (values.map (fun p => encString p.1 ++ encSint p.2)).flatten ++ rest →
      skipNameSint values.length s =
        advance ((values.map (fun p => encString p.1 ++ encSint p.2)).flatten).length s := by
  intro values
  induction values with
  | nil => intro rest s _ _; simp [skipNameSint, advance_zero]
  | cons p values ih =>
    intro rest s hlen h
    rw [List.map_cons, List.flatten_cons, List.append_assoc, List.append_assoc] at h
    have h1 := skip_string_of_drop (hlen p (by simp)) h
    have h2 : (advance (encString p.1).length s).data.drop
        (advance (encString p.1).length s).pos =
        encSint p.2 ++ ((values.map (fun q => encString q.1 ++ encSint q.2)).flatten ++ rest) := by
      rw [drop_advance]
      exact drop_append_of_drop h
    have hsintshape : ∃ b u, encSint p.2 = b :: enc u := by
      by_cases hneg : p.2 < 0
      · exact ⟨TYPE_SINT, (-p.2).toNat, by simp [encSint, hneg]⟩
      · exact ⟨TYPE_UINT, p.2.toNat, by simp [encSint, hneg]⟩
    obtain ⟨b, u, hbu⟩ := hsintshape
    rw [hbu] at h2
    have h3 := skip_sint_of_drop (by simpa using h2)
    have h4 : (advance (1 + (enc u).length) (advance (encString p.1).length s)).data.drop
        (advance (1 + (enc u).length) (advance (encString p.1).length s)).pos =
        (values.map (fun q => encString q.1 ++ encSint q.2)).flatten ++ rest := by
      rw [drop_advance]
      have h5 := drop_append_of_drop h2
      simpa [List.length_cons, Nat.add_comm] using h5
    simp only [List.length_cons, skipNameSint, h1, h3]
    rw [ih rest _ (fun q hq => hlen q (by simp [hq])) h4]
    rw [advance_advance, advance_advance]
    have hlen2 : (encSint p.2).length = (enc u).length + 1 := by rw [hbu]; simp
    congr 1
    simp only [List.map_cons, List.flatten_cons, List.length_append, hlen2]
    omega

theorem skipNameUint_of_drop :
    ∀ (flags : List (List Nat × Nat)) (rest : List Nat) (s : St),
      (∀ p ∈ flags, p.1.length < 2 ^ 64) →
      s.data.drop s.pos =
        (flags.map (fun p => encString p.1 ++ enc p.2)).flatten ++ rest →
      skipNameUint flags.length s =
        advance ((flags.map (fun p => encString p.1 ++ enc p.2)).flatten).length s := by
  intro flags
  induction flags with
  | nil => intro rest s _ _; simp [skipNameUint, advance_zero]
  | cons p flags ih =>
    intro rest s hlen h
    rw [List.map_cons, List.flatten_cons, List.append_assoc, List.append_assoc] at h
    have h1 := skip_string_of_drop (hlen p (by simp)) h
    have h2 : (advance (encString p.1).length s).data.drop
        (advance (encString p.1).length s).pos =
        enc p.2 ++ ((flags.map (fun q => encString q.1 ++ enc q.2)).flatten ++ rest) := by
      rw [drop_advance]
      exact drop_append_of_drop h
    have h3 := skip_uint_of_drop h2
    have h4 : (advance (enc p.2).length (advance (encString p.1).length s)).data.drop
        (advance (enc p.2).length (advance (encString p.1).length s)).pos =
        (flags.map (fun q => encString q.1 ++ enc q.2)).flatten ++ rest := by
      rw [drop_advance]
      exact drop_append_of_drop h2
    simp only [List.length_cons, skipNameUint, h1, h3]
    rw [ih rest _ (fun q hq => hlen q (by simp [hq])) h4]
    rw [advance_advance, advance_advance]
    congr 1
    simp only [List.map_cons, List.flatten_cons, List.length_append]
    omega

/-- The state after a step agrees with the state before in every field
except the stream position. -/
def OnlyPos (s s' : St) : Prop := s' = { s with pos := s'.pos }

theorem onlyPos_refl (s : St) : OnlyPos s s := rfl

theorem onlyPos_trans {s s' s'' : St} (h1 : OnlyPos s s') (h2 : OnlyPos s' s'') :
    OnlyPos s s'' := by
  unfold OnlyPos at *
  rw [h2, h1]

theorem onlyPos_advance (n : Nat) (s : St) : OnlyPos s (advance n s) := rfl

theorem onlyPos_fskip (n : Nat) (s : St) : OnlyPos s (fskip n s) := rfl

theorem onlyPos_skip_uint (s : St) : OnlyPos s (skip_uint s) := rfl

theorem onlyPos_read_uint (s : St) : OnlyPos s (read_uint s).2 := rfl

theorem onlyPos_fread (n : Nat) (s : St) : OnlyPos s (fread n s).2 := rfl

theorem onlyPos_read_string (s : St) : OnlyPos s (read_string s).2 := by
  simp only [read_string]
  split
  · exact onlyPos_trans (onlyPos_read_uint s) (onlyPos_fread _ _)
  · exact onlyPos_read_uint s

theorem onlyPos_skip_string (s : St) : OnlyPos s (skip_string s) := rfl

theorem onlyPos_skip_sint (s : St) : OnlyPos s (skip_sint s) := rfl

theorem onlyPos_read_byte (s : St) : OnlyPos s (read_byte s).2 := by
  unfold read_byte getc
  split
  · rfl
  · rfl

theorem onlyPos_read_sint {s : St} {v : Int} {s' : St}
    (h : read_sint s = .ok v s') : OnlyPos s s' := by
  unfold read_sint at h
  rcases hrb : read_byte s with ⟨oc, s1⟩
  have hop1 : OnlyPos s s1 := by
    have h2 := onlyPos_read_byte s
    rw [hrb] at h2
    exact h2
  rw [hrb] at h
  match oc with
  | none =>
    simp only at h
    cases h
    exact hop1
  | some c =>
    simp only at h
    split at h
    · cases h
      exact onlyPos_trans hop1 (onlyPos_read_uint s1)
    · split at h
      · cases h
        exact onlyPos_trans hop1 (onlyPos_read_uint s1)
      · cases h

theorem onlyPos_readStrings (n : Nat) (s : St) : OnlyPos s (readStrings n s).2 := by
  induction n generalizing s with
  | zero => exact onlyPos_refl s
  | succ n ih =>
    simp only [readStrings]
    exact onlyPos_trans (onlyPos_read_string s) (ih _)

theorem onlyPos_skipStrings (n : Nat) (s : St) : OnlyPos s (skipStrings n s) := by
  induction n generalizing s with
  | zero => exact onlyPos_refl s
  | succ n ih =>
    simp only [skipStrings]
    exact onlyPos_trans (onlyPos_skip_string s) (ih _)

theorem onlyPos_readEnumValues {n : Nat} {s : St} {vs : List (List Nat × Int)}
    {s' : St} (h : readEnumValues n s = .ok vs s') : OnlyPos s s' := by
  induction n generalizing s vs with
  | zero =>
    simp only [readEnumValues] at h
    cases h
    exact onlyPos_refl _
  | succ n ih =>
    simp only [readEnumValues] at h
    cases hsi : read_sint (read_string s).2 with
    | ok v s1 =>
      rw [hsi] at h
      dsimp only at h
      cases hrv : readEnumValues n s1 with
      | ok vs2 s2 =>
        rw [hrv] at h
        dsimp only at h
        cases h
        exact onlyPos_trans (onlyPos_read_string s)
          (onlyPos_trans (onlyPos_read_sint hsi) (ih hrv))
      | fatal =>
        rw [hrv] at h
        dsimp only at h
        cases h
    | fatal =>
      rw [hsi] at h
      dsimp only at h
      cases h

theorem onlyPos_skipNameSint (n : Nat) (s : St) : OnlyPos s (skipNameSint n s) := by
  induction n generalizing s with
  | zero => exact onlyPos_refl s
  | succ n ih =>
    simp only [skipNameSint]
    exact onlyPos_trans
      (onlyPos_trans (onlyPos_skip_string s) (onlyPos_skip_sint _)) (ih _)

theorem onlyPos_readFlags (n : Nat) (s : St) : OnlyPos s (readFlags n s).2 := by
  induction n generalizing s with
  | zero => exact onlyPos_refl s
  | succ n ih =>
    simp only [readFlags]
    exact onlyPos_trans (onlyPos_read_string s)
      (onlyPos_trans (onlyPos_read_uint _) (ih _))

theorem onlyPos_skipNameUint (n : Nat) (s : St) : OnlyPos s (skipNameUint n s) := by
  induction n generalizing s with
  | zero => exact onlyPos_refl s
  | succ n ih =>
    simp only [skipNameUint]
    exact onlyPos_trans
      (onlyPos_trans (onlyPos_skip_string s) (onlyPos_skip_uint _)) (ih _)

/-- Resolved entries of a signature table are preserved: whatever id
already maps to a signature keeps mapping to the same signature. -/
def stable {α : Type} (m m' : List (Option α)) : Prop :=
  ∀ i x, m.getD i none = some x → m'.getD i none = some x

theorem stable_refl {α : Type} (m : List (Option α)) : stable m m :=
  fun _ _ h => h

theorem stable_trans {α : Type} {m m' m'' : List (Option α)}
    (h1 : stable m m') (h2 : stable m' m'') : stable m m'' :=
  fun i x h => h2 i x (h1 i x h)

theorem stable_of_eq {α : Type} {m m' : List (Option α)} (h : m' = m) :
    stable m m' := fun _ _ hx => h ▸ hx

theorem getD_lt_length {α : Type} {m : List (Option α)} {i : Nat} {x : α}
    (h : m.getD i none = some x) : i < m.length := by
  by_contra hge
  rw [List.getD_eq_getElem?_getD, List.getElem?_eq_none (by omega)] at h
  simp at h

theorem stable_append {α : Type} (m : List (Option α)) (k : Nat) :
    stable m (m ++ List.replicate k none) := by
  intro i x h
  have hlt := getD_lt_length h
  rw [List.getD_eq_getElem?_getD, List.getElem?_append, if_pos hlt,
    ← List.getD_eq_getElem?_getD]
  exact h

theorem stable_set_of_none {α : Type} {m : List (Option α)} {id : Nat}
    (h : m.getD id none = none) (v : Option α) :
    stable m (m.set id v) := by
  intro i x hx
  have hne : i ≠ id := by
    intro he
    rw [he, h] at hx
    exact Option.noConfusion hx
  rw [List.getD_eq_getElem?_getD, List.getElem?_set_ne (Ne.symm hne),
    ← List.getD_eq_getElem?_getD]
  exact hx

theorem lookup_stable {α : Type} (m : List (Option α)) (id : Nat) :
    stable m (lookup m id).2 := by
  unfold lookup
  split
  · exact stable_append m _
  · exact stable_refl m

theorem lookup_of_getD {α : Type} {m : List (Option α)} {id : Nat} {x : α}
    (h : m.getD id none = some x) : lookup m id = (some x, m) := by
  unfold lookup
  rw [if_neg (by have := getD_lt_length h; omega)]
  rw [h]

theorem lookup_none_getD {α : Type} {m : List (Option α)} {id : Nat}
    (h : (lookup m id).1 = none) : (lookup m id).2.getD id none = none := by
  unfold lookup at *
  split at h
  · next hle =>
    rw [if_pos hle]
    simp only
    rw [List.getD_eq_getElem?_getD, List.getElem?_append_right (by omega)]
    have hlt : id - m.length < id + 1 - m.length := by omega
    rw [List.getElem?_replicate]
    simp [if_pos hlt]
  · next hle =>
    rw [if_neg hle]
    simpa using h

theorem stable_intern {α : Type} {m : List (Option α)} {id : Nat}
    (h : (lookup m id).1 = none) (v : Option α) :
    stable m ((lookup m id).2.set id v) :=
  stable_trans (lookup_stable m id)
    (stable_set_of_none (lookup_none_getD h) v)

/-- Frame of the value decoders. -/
def VFrame (s s' : St) : Prop :=
  s'.data = s.data ∧ s'.version = s.version ∧ s'.calls = s.calls ∧
  s'.next_call_no = s.next_call_no ∧ s'.glGetErrorSig = s.glGetErrorSig ∧
  s'.functions = s.functions ∧ stable s.structs s'.structs ∧
  stable s.enums s'.enums ∧ stable s.bitmasks s'.bitmasks

theorem vframe_refl (s : St) : VFrame s s :=
  ⟨rfl, rfl, rfl, rfl, rfl, rfl, stable_refl _, stable_refl _, stable_refl _⟩

theorem vframe_trans {s s' s'' : St} (h1 : VFrame s s') (h2 : VFrame s' s'') :
    VFrame s s'' := by
  obtain ⟨a1, b1, c1, d1, e1, f1, g1, h1', i1⟩ := h1
  obtain ⟨a2, b2, c2, d2, e2, f2, g2, h2', i2⟩ := h2
  exact ⟨a2.trans a1, b2.trans b1, c2.trans c1, d2.trans d1, e2.trans e1,
    f2.trans f1, stable_trans g1 g2, stable_trans h1' h2', stable_trans i1 i2⟩

theorem vframe_of_onlyPos {s s' : St} (h : OnlyPos s s') : VFrame s s' := by
  rw [h]
  exact vframe_refl _

theorem vframe_setStructs {s t : St} (h : VFrame s t)
    {m : List (Option StructSigState)} (hm : stable s.structs m) :
    VFrame s (setStructs m t) := by
  obtain ⟨a, b, c, d, e, f, _, h', i⟩ := h
  exact ⟨a, b, c, d, e, f, hm, h', i⟩

theorem vframe_setEnums {s t : St} (h : VFrame s t)
    {m : List (Option EnumSigState)} (hm : stable s.enums m) :
    VFrame s (setEnums m t) := by
  obtain ⟨a, b, c, d, e, f, g, _, i⟩ := h
  exact ⟨a, b, c, d, e, f, g, hm, i⟩

theorem vframe_setBitmasks {s t : St} (h : VFrame s t)
    {m : List (Option BitmaskSigState)} (hm : stable s.bitmasks m) :
    VFrame s (setBitmasks m t) := by
  obtain ⟨a, b, c, d, e, f, g, h', _⟩ := h
  exact ⟨a, b, c, d, e, f, g, h', hm⟩

theorem onlyPos_vframe {s t u : St} (h1 : VFrame s t) (h2 : OnlyPos t u) :
    VFrame s u := vframe_trans h1 (vframe_of_onlyPos h2)

theorem vframe_parse_struct_sig (s : St) : VFrame s (parse_struct_sig s).2 := by
  simp only [parse_struct_sig]
  have hvb : VFrame s
      (setStructs (lookup (read_uint s).2.structs (read_uint s).1).2 (read_uint s).2) :=
    vframe_setStructs (vframe_of_onlyPos (onlyPos_read_uint s))
      (lookup_stable s.structs (read_uint s).1)
  split
  next heq =>
    set base := setStructs (lookup (read_uint s).2.structs (read_uint s).1).2
      (read_uint s).2 with hbdef
    set rs2 := (readStrings (u32 (read_uint (read_string base).2).1)
      (read_uint (read_string base).2).2).2 with hrsdef
    have hop : OnlyPos base rs2 := by
      rw [hrsdef]
      exact onlyPos_trans (onlyPos_read_string _)
        (onlyPos_trans (onlyPos_read_uint _) (onlyPos_readStrings _ _))
    have h1 : rs2.structs = (lookup (read_uint s).2.structs (read_uint s).1).2 := by
      rw [hop]; rfl
    refine vframe_setStructs (onlyPos_vframe hvb hop) ?_
    rw [h1]
    exact stable_intern heq _
  next sig heq =>
    split
    · exact onlyPos_vframe hvb
        (onlyPos_trans (onlyPos_skip_string _)
          (onlyPos_trans (onlyPos_read_uint _) (onlyPos_skipStrings _ _)))
    · exact hvb

theorem vframe_parse_bitmask_sig (s : St) : VFrame s (parse_bitmask_sig s).2 := by
  simp only [parse_bitmask_sig]
  have hvb : VFrame s
      (setBitmasks (lookup (read_uint s).2.bitmasks (read_uint s).1).2 (read_uint s).2) :=
    vframe_setBitmasks (vframe_of_onlyPos (onlyPos_read_uint s))
      (lookup_stable s.bitmasks (read_uint s).1)
  split
  next heq =>
    set base := setBitmasks (lookup (read_uint s).2.bitmasks (read_uint s).1).2
      (read_uint s).2 with hbdef
    set rs2 := (readFlags (u32 (read_uint base).1) (read_uint base).2).2 with hrsdef
    have hop : OnlyPos base rs2 := by
      rw [hrsdef]
      exact onlyPos_trans (onlyPos_read_uint _) (onlyPos_readFlags _ _)
    have h1 : rs2.bitmasks = (lookup (read_uint s).2.bitmasks (read_uint s).1).2 := by
      rw [hop]; rfl
    refine vframe_setBitmasks (onlyPos_vframe hvb hop) ?_
    rw [h1]
    exact stable_intern heq _
  next sig heq =>
    split
    · exact onlyPos_vframe hvb
        (onlyPos_trans (onlyPos_read_uint _) (onlyPos_skipNameUint _ _))
    · exact hvb

theorem vframe_parse_enum_sig {s : St} {sig : EnumSigState} {s' : St}
    (h : parse_enum_sig s = .ok sig s') : VFrame s s' := by
  simp only [parse_enum_sig] at h
  have hvb : VFrame s
      (setEnums (lookup (read_uint s).2.enums (read_uint s).1).2 (read_uint s).2) :=
    vframe_setEnums (vframe_of_onlyPos (onlyPos_read_uint s))
      (lookup_stable s.enums (read_uint s).1)
  split at h
  next heq =>
    set base := setEnums (lookup (read_uint s).2.enums (read_uint s).1).2
      (read_uint s).2 with hbdef
    cases hrv : readEnumValues (u32 (read_uint base).1) (read_uint base).2 with
    | ok values s2 =>
      rw [hrv] at h
      dsimp only at h
      cases h
      have hop : OnlyPos base s2 :=
        onlyPos_trans (onlyPos_read_uint _) (onlyPos_readEnumValues hrv)
      have h1 : s2.enums = (lookup (read_uint s).2.enums (read_uint s).1).2 := by
        rw [hop]; rfl
      refine vframe_setEnums (onlyPos_vframe hvb hop) ?_
      rw [h1]
      exact stable_intern heq _
    | fatal =>
      rw [hrv] at h
      cases h
  next sig2 heq =>
    split at h
    · cases h
      exact onlyPos_vframe hvb
        (onlyPos_trans (onlyPos_read_uint _) (onlyPos_skipNameSint _ _))
    · cases h
      exact hvb

/-- Frame across whole decoding steps: stream content and version are
untouched and all four signature tables only gain entries. -/
def CFrame (s s' : St) : Prop :=
  s'.data = s.data ∧ s'.version = s.version ∧
  stable s.functions s'.functions ∧ stable s.structs s'.structs ∧
  stable s.enums s'.enums ∧ stable s.bitmasks s'.bitmasks

theorem cframe_refl (s : St) : CFrame s s :=
  ⟨rfl, rfl, stable_refl _, stable_refl _, stable_refl _, stable_refl _⟩

theorem cframe_trans {s s' s'' : St} (h1 : CFrame s s') (h2 : CFrame s' s'') :
    CFrame s s'' := by
  obtain ⟨a1, b1, c1, d1, e1, f1⟩ := h1
  obtain ⟨a2, b2, c2, d2, e2, f2⟩ := h2
  exact ⟨a2.trans a1, b2.trans b1, stable_trans c1 c2, stable_trans d1 d2,
    stable_trans e1 e2, stable_trans f1 f2⟩

theorem cframe_of_vframe {s s' : St} (h : VFrame s s') : CFrame s s' := by
  obtain ⟨a, b, _, _, _, f, g, h', i⟩ := h
  exact ⟨a, b, stable_of_eq f, g, h', i⟩

theorem cframe_setFunctions {s t : St} (h : CFrame s t)
    {m : List (Option FunctionSigState)} (hm : stable s.functions m) :
    CFrame s (setFunctions m t) := by
  obtain ⟨a, b, _, d, e, f⟩ := h
  exact ⟨a, b, hm, d, e, f⟩

theorem cframe_setGlGetError {s t : St} (h : CFrame s t) (g : Option Nat) :
    CFrame s (setGlGetError g t) := h

theorem cframe_setNcn {s t : St} (h : CFrame s t) (n : Nat) :
    CFrame s (setNcn n t) := h

theorem cframe_setCalls {s t : St} (h : CFrame s t) (l : List Call) :
    CFrame s (setCalls l t) := h

theorem cframe_of_onlyPos {s s' : St} (h : OnlyPos s s') : CFrame s s' :=
  cframe_of_vframe (vframe_of_onlyPos h)

theorem onlyPos_cframe {s t u : St} (h1 : CFrame s t) (h2 : OnlyPos t u) :
    CFrame s u := cframe_trans h1 (cframe_of_onlyPos h2)

theorem cframe_parse_function_sig (lcf : List Nat → Nat) (s : St) :
    CFrame s (parse_function_sig lcf s).2 := by
  simp only [parse_function_sig]
  have hvb : CFrame s
      (setFunctions (lookup (read_uint s).2.functions (read_uint s).1).2 (read_uint s).2) :=
    cframe_setFunctions (cframe_of_onlyPos (onlyPos_read_uint s))
      (lookup_stable s.functions (read_uint s).1)
  split
  next heq =>
    set base := setFunctions (lookup (read_uint s).2.functions (read_uint s).1).2
      (read_uint s).2 with hbdef
    set rs2 := (readStrings (u32 (read_uint (read_string base).2).1)
      (read_uint (read_string base).2).2).2 with hrsdef
    have hop : OnlyPos base rs2 := by
      rw [hrsdef]
      exact onlyPos_trans (onlyPos_read_string _)
        (onlyPos_trans (onlyPos_read_uint _) (onlyPos_readStrings _ _))
    have h1 : rs2.functions = (lookup (read_uint s).2.functions (read_uint s).1).2 := by
      rw [hop]; rfl
    have hset : CFrame s (setFunctions
        (rs2.functions.set (read_uint s).1 (some
          { id := (read_uint s).1, name := (read_string base).1,
            arg_names := (readStrings (u32 (read_uint (read_string base).2).1)
              (read_uint (read_string base).2).2).1,
            flags := lcf (read_string base).1, offset := rs2.pos })) rs2) := by
      refine cframe_setFunctions (onlyPos_cframe hvb hop) ?_
      rw [h1]
      exact stable_intern heq _
    split
    · exact cframe_setGlGetError hset _
    · exact hset
  next sig heq =>
    split
    · exact onlyPos_cframe hvb
        (onlyPos_trans (onlyPos_skip_string _)
          (onlyPos_trans (onlyPos_read_uint _) (onlyPos_skipStrings _ _)))
    · exact hvb

set_option maxHeartbeats 3200000 in
theorem vframe_mutual : ∀ fuel : Nat,
    (∀ s r s', scan_value fuel s = .ok r s' → VFrame s s') ∧
    (∀ n s r s', scan_values fuel n s = .ok r s' → VFrame s s') ∧
    (∀ s sig s', parse_old_enum_sig fuel s = .ok sig s' → VFrame s s') ∧
    (∀ s v s', parse_value fuel s = .ok v s' → VFrame s s') ∧
    (∀ n s vs s', parse_values fuel n s = .ok vs s' → VFrame s s') := by
  intro fuel
  induction fuel with
  | zero =>
    refine ⟨?_, ?_, ?_, ?_, ?_⟩
    · intro s r s' h; cases h
    · intro n s r s' h; cases h
    · intro s sig s' h; cases h
    · intro s v s' h; cases h
    · intro n s vs s' h; cases h
  | succ fuel ih =>
    obtain ⟨ihs, ihss, ihp, ihv, ihvs⟩ := ih
    refine ⟨?_, ?_, ?_, ?_, ?_⟩
    · -- scan_value
      intro s r s' h
      simp only [scan_value] at h
      rcases hrb : read_byte s with ⟨oc, s1⟩
      rw [hrb] at h
      have hop1 : VFrame s s1 := by
        have h2 := onlyPos_read_byte s
        rw [hrb] at h2
        exact vframe_of_onlyPos h2
      match oc with
      | none =>
        dsimp only at h
        cases h
        exact hop1
      | some c =>
        dsimp only at h
        by_cases hc0 : c = TYPE_NULL
        · rw [if_pos hc0] at h
          cases h; exact hop1
        · rw [if_neg hc0] at h
          by_cases hc1 : c = TYPE_FALSE
          · rw [if_pos hc1] at h
            cases h; exact hop1
          · rw [if_neg hc1] at h
            by_cases hc2 : c = TYPE_TRUE
            · rw [if_pos hc2] at h
              cases h; exact hop1
            · rw [if_neg hc2] at h
              by_cases hc3 : c = TYPE_SINT
              · rw [if_pos hc3] at h
                cases h; exact onlyPos_vframe hop1 (onlyPos_skip_uint s1)
              · rw [if_neg hc3] at h
                by_cases hc4 : c = TYPE_UINT
                · rw [if_pos hc4] at h
                  cases h; exact onlyPos_vframe hop1 (onlyPos_skip_uint s1)
                · rw [if_neg hc4] at h
                  by_cases hc5 : c = TYPE_FLOAT
                  · rw [if_pos hc5] at h
                    cases h; exact onlyPos_vframe hop1 (onlyPos_fskip 4 s1)
                  · rw [if_neg hc5] at h
                    by_cases hc6 : c = TYPE_DOUBLE
                    · rw [if_pos hc6] at h
                      cases h; exact onlyPos_vframe hop1 (onlyPos_fskip 8 s1)
                    · rw [if_neg hc6] at h
                      by_cases hc7 : c = TYPE_STRING
                      · rw [if_pos hc7] at h
                        cases h; exact onlyPos_vframe hop1 (onlyPos_skip_string s1)
                      · rw [if_neg hc7] at h
                        by_cases hc8 : c = TYPE_ENUM
                        · rw [if_pos hc8] at h
                          by_cases hv : 3 ≤ s1.version
                          · rw [if_pos hv] at h
                            cases hes : parse_enum_sig s1 with
                            | ok sig2 s2 =>
                              rw [hes] at h
                              dsimp only at h
                              cases h
                              exact onlyPos_vframe (vframe_trans hop1 (vframe_parse_enum_sig hes))
                                (onlyPos_skip_sint s2)
                            | fatal => rw [hes] at h; cases h
                          · rw [if_neg hv] at h
                            cases hps : parse_old_enum_sig fuel s1 with
                            | ok sig2 s2 =>
                              rw [hps] at h
                              dsimp only at h
                              cases h
                              exact vframe_trans hop1 (ihp _ _ _ hps)
                            | fatal => rw [hps] at h; cases h
                        · rw [if_neg hc8] at h
                          by_cases hc9 : c = TYPE_BITMASK
                          · rw [if_pos hc9] at h
                            cases h
                            exact onlyPos_vframe (vframe_trans hop1 (vframe_parse_bitmask_sig s1))
                              (onlyPos_skip_uint _)
                          · rw [if_neg hc9] at h
                            by_cases hc10 : c = TYPE_ARRAY
                            · rw [if_pos hc10] at h
                              exact vframe_trans hop1
                                (vframe_trans (vframe_of_onlyPos (onlyPos_read_uint s1)) (ihss _ _ _ _ h))
                            · rw [if_neg hc10] at h
                              by_cases hc11 : c = TYPE_STRUCT
                              · rw [if_pos hc11] at h
                                exact vframe_trans hop1
                                  (vframe_trans (vframe_parse_struct_sig s1) (ihss _ _ _ _ h))
                              · rw [if_neg hc11] at h
                                by_cases hc12 : c = TYPE_BLOB
                                · rw [if_pos hc12] at h
                                  cases h
                                  refine onlyPos_vframe (onlyPos_vframe hop1 (onlyPos_read_uint s1)) ?_
                                  split
                                  · exact onlyPos_fskip _ _
                                  · exact onlyPos_refl _
                                · rw [if_neg hc12] at h
                                  by_cases hc13 : c = TYPE_POINTER
                                  · rw [if_pos hc13] at h
                                    cases h; exact onlyPos_vframe hop1 (onlyPos_skip_uint s1)
                                  · rw [if_neg hc13] at h
                                    cases h
    · -- scan_values
      intro n s r s' h
      match n with
      | 0 =>
        simp only [scan_values] at h
        cases h
        exact vframe_refl _
      | n + 1 =>
        simp only [scan_values] at h
        cases hsv : scan_value fuel s with
        | ok u s1 =>
          rw [hsv] at h
          dsimp only at h
          exact vframe_trans (ihs _ _ _ hsv) (ihss _ _ _ _ h)
        | fatal => rw [hsv] at h; cases h
    · -- parse_old_enum_sig
      intro s sig s' h
      simp only [parse_old_enum_sig] at h
      have hvb : VFrame s
          (setEnums (lookup (read_uint s).2.enums (read_uint s).1).2 (read_uint s).2) :=
        vframe_setEnums (vframe_of_onlyPos (onlyPos_read_uint s))
          (lookup_stable s.enums (read_uint s).1)
      split at h
      next heq =>
        set base := setEnums (lookup (read_uint s).2.enums (read_uint s).1).2
          (read_uint s).2 with hbdef
        cases hsi : read_sint (read_string base).2 with
        | ok v s2 =>
          rw [hsi] at h
          dsimp only at h
          cases h
          have hop : OnlyPos base s2 :=
            onlyPos_trans (onlyPos_read_string _) (onlyPos_read_sint hsi)
          have h1 : s2.enums = (lookup (read_uint s).2.enums (read_uint s).1).2 := by
            rw [hop]; rfl
          refine vframe_setEnums (onlyPos_vframe hvb hop) ?_
          rw [h1]
          exact stable_intern heq _
        | fatal => rw [hsi] at h; cases h
      next sig2 heq =>
        split at h
        · cases hsv : scan_value fuel (skip_string (setEnums
              (lookup (read_uint s).2.enums (read_uint s).1).2 (read_uint s).2)) with
          | ok u s2 =>
            rw [hsv] at h
            dsimp only at h
            cases h
            exact vframe_trans
              (onlyPos_vframe hvb (onlyPos_skip_string _)) (ihs _ _ _ hsv)
          | fatal => rw [hsv] at h; cases h
        · cases h
          exact hvb
    · -- parse_value
      intro s v s' h
      simp only [parse_value] at h
      rcases hrb : read_byte s with ⟨oc, s1⟩
      rw [hrb] at h
      have hop1 : VFrame s s1 := by
        have h2 := onlyPos_read_byte s
        rw [hrb] at h2
        exact vframe_of_onlyPos h2
      match oc with
      | none =>
        dsimp only at h
        cases h
        exact hop1
      | some c =>
        dsimp only at h
        by_cases hc0 : c = TYPE_NULL
        · rw [if_pos hc0] at h
          cases h; exact hop1
        · rw [if_neg hc0] at h
          by_cases hc1 : c = TYPE_FALSE
          · rw [if_pos hc1] at h
            cases h; exact hop1
          · rw [if_neg hc1] at h
            by_cases hc2 : c = TYPE_TRUE
            · rw [if_pos hc2] at h
              cases h; exact hop1
            · rw [if_neg hc2] at h
              by_cases hc3 : c = TYPE_SINT
              · rw [if_pos hc3] at h
                cases h; exact onlyPos_vframe hop1 (onlyPos_read_uint s1)
              · rw [if_neg hc3] at h
                by_cases hc4 : c = TYPE_UINT
                · rw [if_pos hc4] at h
                  cases h; exact onlyPos_vframe hop1 (onlyPos_read_uint s1)
                · rw [if_neg hc4] at h
                  by_cases hc5 : c = TYPE_FLOAT
                  · rw [if_pos hc5] at h
                    cases h; exact onlyPos_vframe hop1 (onlyPos_fread 4 s1)
                  · rw [if_neg hc5] at h
                    by_cases hc6 : c = TYPE_DOUBLE
                    · rw [if_pos hc6] at h
                      cases h; exact onlyPos_vframe hop1 (onlyPos_fread 8 s1)
                    · rw [if_neg hc6] at h
                      by_cases hc7 : c = TYPE_STRING
                      · rw [if_pos hc7] at h
                        cases h; exact onlyPos_vframe hop1 (onlyPos_read_string s1)
                      · rw [if_neg hc7] at h
                        by_cases hc8 : c = TYPE_ENUM
                        · rw [if_pos hc8] at h
                          by_cases hv : 3 ≤ s1.version
                          · rw [if_pos hv] at h
                            cases hes : parse_enum_sig s1 with
                            | ok sig2 s2 =>
                              rw [hes] at h
                              dsimp only at h
                              cases hsi : read_sint s2 with
                              | ok v2 s3 =>
                                rw [hsi] at h
                                dsimp only at h
                                cases h
                                exact onlyPos_vframe (vframe_trans hop1 (vframe_parse_enum_sig hes))
                                  (onlyPos_read_sint hsi)
                              | fatal => rw [hsi] at h; cases h
                            | fatal => rw [hes] at h; cases h
                          · rw [if_neg hv] at h
                            cases hps : parse_old_enum_sig fuel s1 with
                            | ok sig2 s2 =>
                              rw [hps] at h
                              dsimp only at h
                              cases h
                              exact vframe_trans hop1 (ihp _ _ _ hps)
                            | fatal => rw [hps] at h; cases h
                        · rw [if_neg hc8] at h
                          by_cases hc9 : c = TYPE_BITMASK
                          · rw [if_pos hc9] at h
                            cases h
                            exact onlyPos_vframe (vframe_trans hop1 (vframe_parse_bitmask_sig s1))
                              (onlyPos_read_uint _)
                          · rw [if_neg hc9] at h
                            by_cases hc10 : c = TYPE_ARRAY
                            · rw [if_pos hc10] at h
                              cases hpv : parse_values fuel (read_uint s1).1 (read_uint s1).2 with
                              | ok vs s2 =>
                                rw [hpv] at h
                                dsimp only at h
                                cases h
                                exact vframe_trans hop1
                                  (vframe_trans (vframe_of_onlyPos (onlyPos_read_uint s1)) (ihvs _ _ _ _ hpv))
                              | fatal => rw [hpv] at h; cases h
                            · rw [if_neg hc10] at h
                              by_cases hc11 : c = TYPE_STRUCT
                              · rw [if_pos hc11] at h
                                cases hpv : parse_values fuel
                                    (parse_struct_sig s1).1.member_names.length (parse_struct_sig s1).2 with
                                | ok vs s2 =>
                                  rw [hpv] at h
                                  dsimp only at h
                                  cases h
                                  exact vframe_trans hop1
                                    (vframe_trans (vframe_parse_struct_sig s1) (ihvs _ _ _ _ hpv))
                                | fatal => rw [hpv] at h; cases h
                              · rw [if_neg hc11] at h
                                by_cases hc12 : c = TYPE_BLOB
                                · rw [if_pos hc12] at h
                                  cases h
                                  refine onlyPos_vframe (onlyPos_vframe hop1 (onlyPos_read_uint s1)) ?_
                                  split
                                  · exact onlyPos_fread _ _
                                  · exact onlyPos_refl _
                                · rw [if_neg hc12] at h
                                  by_cases hc13 : c = TYPE_POINTER
                                  · rw [if_pos hc13] at h
                                    cases h; exact onlyPos_vframe hop1 (onlyPos_read_uint s1)
                                  · rw [if_neg hc13] at h
                                    cases h
    · -- parse_values
      intro n s vs s' h
      match n with
      | 0 =>
        simp only [parse_values] at h
        cases h
        exact vframe_refl _
      | n + 1 =>
        simp only [parse_values] at h
        cases hpv : parse_value fuel s with
        | ok v s1 =>
          rw [hpv] at h
          dsimp only at h
          cases hpvs : parse_values fuel n s1 with
          | ok vs2 s2 =>
            rw [hpvs] at h
            dsimp only at h
            cases h
            exact vframe_trans (ihv _ _ _ hpv) (ihvs _ _ _ _ hpvs)
          | fatal => rw [hpvs] at h; cases h
        | fatal => rw [hpv] at h; cases h

theorem vframe_scan_value {fuel : Nat} {s : St} {r : Unit} {s' : St}
    (h : scan_value fuel s = .ok r s') : VFrame s s' :=
  (vframe_mutual fuel).1 s r s' h

theorem vframe_parse_old_enum_sig {fuel : Nat} {s : St} {sig : EnumSigState}
    {s' : St} (h : parse_old_enum_sig fuel s = .ok sig s') : VFrame s s' :=
  (vframe_mutual fuel).2.2.1 s sig s' h

theorem vframe_parse_value {fuel : Nat} {s : St} {v : Option Value} {s' : St}
    (h : parse_value fuel s = .ok v s') : VFrame s s' :=
  (vframe_mutual fuel).2.2.2.1 s v s' h

theorem vframe_parse_values {fuel n : Nat} {s : St} {vs : List (Option Value)}
    {s' : St} (h : parse_values fuel n s = .ok vs s') : VFrame s s' :=
  (vframe_mutual fuel).2.2.2.2 n s vs s' h

theorem fskip_one_eof {s : St} (hle : s.data.length ≤ s.pos) : fskip 1 s = s := by
  simp [fskip, Nat.sub_eq_zero_of_le hle]

theorem skip_uint_eof {s : St} (hle : s.data.length ≤ s.pos) : skip_uint s = s := by
  have hdrop : s.data.drop s.pos = [] := List.drop_eq_nil_of_le hle
  simp [skip_uint, hdrop, suAux]

theorem read_sint_skip {s : St} {v : Int} {s' : St}
    (h : read_sint s = .ok v s') : skip_sint s = s' := by
  unfold read_sint at h
  rcases hrb : read_byte s with ⟨oc, s1⟩
  rw [hrb] at h
  match oc with
  | none =>
    dsimp only at h
    obtain ⟨rfl, hle⟩ := read_byte_none hrb
    cases h
    rw [skip_sint, fskip_one_eof hle, skip_uint_eof hle]
  | some c =>
    dsimp only at h
    obtain ⟨rfl, hlt⟩ := read_byte_some hrb
    have hf1 : fskip 1 s = { s with pos := s.pos + 1 } := by
      simp [fskip]
      omega
    split at h
    · cases h
      rw [skip_sint, hf1, ← read_uint_snd]
    · split at h
      · cases h
        rw [skip_sint, hf1, ← read_uint_snd]
      · cases h


set_option maxHeartbeats 1600000 in
theorem scan_parse_bounded_mutual : ∀ fuel : Nat,
    (∀ s v s' s'', parse_value fuel s = .ok v s' →
      scan_value32 fuel s = .ok () s'' →
      scan_value fuel s = .ok () s' ∧ s'' = s') ∧
    (∀ n s vs s' s'', parse_values fuel n s = .ok vs s' →
      scan_values32 fuel n s = .ok () s'' →
      scan_values fuel n s = .ok () s' ∧ s'' = s') := by
  intro fuel
  induction fuel with
  | zero =>
    refine ⟨?_, ?_⟩
    · intro s v s' s'' hp hb; cases hp
    · intro n s vs s' s'' hp hb; cases hp
  | succ fuel ih =>
    obtain ⟨ihv, ihvs⟩ := ih
    refine ⟨?_, ?_⟩
    · intro s v s' s'' hp hb
      simp only [parse_value] at hp
      simp only [scan_value32] at hb
      simp only [scan_value]
      rcases hrb : read_byte s with ⟨oc, s1⟩
      rw [hrb] at hp hb
      match oc with
      | none =>
        dsimp only at hp hb ⊢
        cases hp
        cases hb
        exact ⟨rfl, rfl⟩
      | some c =>
        dsimp only at hp hb ⊢
        by_cases hc0 : c = TYPE_NULL
        · rw [if_pos hc0] at hp hb ⊢
          cases hp; cases hb; exact ⟨rfl, rfl⟩
        · rw [if_neg hc0] at hp hb ⊢
          by_cases hc1 : c = TYPE_FALSE
          · rw [if_pos hc1] at hp hb ⊢
            cases hp; cases hb; exact ⟨rfl, rfl⟩
          · rw [if_neg hc1] at hp hb ⊢
            by_cases hc2 : c = TYPE_TRUE
            · rw [if_pos hc2] at hp hb ⊢
              cases hp; cases hb; exact ⟨rfl, rfl⟩
            · rw [if_neg hc2] at hp hb ⊢
              by_cases hc3 : c = TYPE_SINT
              · rw [if_pos hc3] at hp hb ⊢
                cases hp; cases hb; rw [read_uint_snd]; exact ⟨rfl, rfl⟩
              · rw [if_neg hc3] at hp hb ⊢
                by_cases hc4 : c = TYPE_UINT
                · rw [if_pos hc4] at hp hb ⊢
                  cases hp; cases hb; rw [read_uint_snd]; exact ⟨rfl, rfl⟩
                · rw [if_neg hc4] at hp hb ⊢
                  by_cases hc5 : c = TYPE_FLOAT
                  · rw [if_pos hc5] at hp hb ⊢
                    cases hp; cases hb; exact ⟨rfl, rfl⟩
                  · rw [if_neg hc5] at hp hb ⊢
                    by_cases hc6 : c = TYPE_DOUBLE
                    · rw [if_pos hc6] at hp hb ⊢
                      cases hp; cases hb; exact ⟨rfl, rfl⟩
                    · rw [if_neg hc6] at hp hb ⊢
                      by_cases hc7 : c = TYPE_STRING
                      · rw [if_pos hc7] at hp hb ⊢
                        cases hp
                        by_cases hlt : (read_uint s1).1 < 2 ^ 32
                        · rw [if_pos hlt] at hb
                          cases hb
                          rw [read_string_snd_of_lt s1 hlt]
                          exact ⟨rfl, rfl⟩
                        · rw [if_neg hlt] at hb
                          cases hb
                      · rw [if_neg hc7] at hp hb ⊢
                        by_cases hc8 : c = TYPE_ENUM
                        · rw [if_pos hc8] at hp hb ⊢
                          by_cases hv : 3 ≤ s1.version
                          · rw [if_pos hv] at hp hb ⊢
                            cases hes : parse_enum_sig s1 with
                            | ok sig2 s2 =>
                              rw [hes] at hp hb
                              dsimp only at hp hb ⊢
                              cases hsi : read_sint s2 with
                              | ok v2 s3 =>
                                rw [hsi] at hp
                                dsimp only at hp
                                cases hp
                                cases hb
                                rw [read_sint_skip hsi]
                                exact ⟨rfl, rfl⟩
                              | fatal => rw [hsi] at hp; cases hp
                            | fatal => rw [hes] at hp; cases hp
                          · rw [if_neg hv] at hp hb ⊢
                            cases hps : parse_old_enum_sig fuel s1 with
                            | ok sig2 s2 =>
                              rw [hps] at hp hb
                              dsimp only at hp hb ⊢
                              cases hp
                              cases hb
                              exact ⟨rfl, rfl⟩
                            | fatal => rw [hps] at hp; cases hp
                        · rw [if_neg hc8] at hp hb ⊢
                          by_cases hc9 : c = TYPE_BITMASK
                          · rw [if_pos hc9] at hp hb ⊢
                            cases hp; cases hb; rw [read_uint_snd]; exact ⟨rfl, rfl⟩
                          · rw [if_neg hc9] at hp hb ⊢
                            by_cases hc10 : c = TYPE_ARRAY
                            · rw [if_pos hc10] at hp hb ⊢
                              cases hpv : parse_values fuel (read_uint s1).1 (read_uint s1).2 with
                              | ok vs2 s2 =>
                                rw [hpv] at hp
                                dsimp only at hp
                                cases hp
                                exact ihvs _ _ _ _ _ hpv hb
                              | fatal => rw [hpv] at hp; cases hp
                            · rw [if_neg hc10] at hp hb ⊢
                              by_cases hc11 : c = TYPE_STRUCT
                              · rw [if_pos hc11] at hp hb ⊢
                                cases hpv : parse_values fuel
                                    (parse_struct_sig s1).1.member_names.length (parse_struct_sig s1).2 with
                                | ok vs2 s2 =>
                                  rw [hpv] at hp
                                  dsimp only at hp
                                  cases hp
                                  exact ihvs _ _ _ _ _ hpv hb
                                | fatal => rw [hpv] at hp; cases hp
                              · rw [if_neg hc11] at hp hb ⊢
                                by_cases hc12 : c = TYPE_BLOB
                                · rw [if_pos hc12] at hp hb ⊢
                                  cases hp
                                  by_cases hlt : (read_uint s1).1 < 2 ^ 32
                                  · rw [if_pos hlt] at hb
                                    cases hb
                                    have hu : u32 (read_uint s1).1 = (read_uint s1).1 :=
                                      Nat.mod_eq_of_lt hlt
                                    by_cases hz : (read_uint s1).1 ≠ 0
                                    · rw [if_pos hz, if_pos hz, hu]
                                      exact ⟨rfl, rfl⟩
                                    · rw [if_neg hz, if_neg hz]
                                      exact ⟨rfl, rfl⟩
                                  · rw [if_neg hlt] at hb
                                    cases hb
                                · rw [if_neg hc12] at hp hb ⊢
                                  by_cases hc13 : c = TYPE_POINTER
                                  · rw [if_pos hc13] at hp hb ⊢
                                    cases hp; cases hb; rw [read_uint_snd]; exact ⟨rfl, rfl⟩
                                  · rw [if_neg hc13] at hp hb ⊢
                                    cases hp
    · intro n s vs s' s'' hp hb
      match n with
      | 0 =>
        simp only [parse_values] at hp
        simp only [scan_values32] at hb
        cases hp
        cases hb
        exact ⟨rfl, rfl⟩
      | n + 1 =>
        simp only [parse_values] at hp
        simp only [scan_values32] at hb
        simp only [scan_values]
        cases hpv : parse_value fuel s with
        | ok v1 s1 =>
          rw [hpv] at hp
          dsimp only at hp
          cases hbv : scan_value32 fuel s with
          | ok u t1 =>
            cases u
            rw [hbv] at hb
            dsimp only at hb
            obtain ⟨hsc1, he1⟩ := ihv _ _ _ _ hpv hbv
            rw [he1] at hb
            rw [hsc1]
            dsimp only
            cases hpvs : parse_values fuel n s1 with
            | ok vs2 s2 =>
              rw [hpvs] at hp
              dsimp only at hp
              cases hp
              exact ihvs _ _ _ _ _ hpvs hb
            | fatal => rw [hpvs] at hp; cases hp
          | fatal => rw [hbv] at hb; cases hb
        | fatal => rw [hpv] at hp; cases hp

theorem pcd_spec : ∀ (fuel : Nat) (call : Call) (s : St) (oc : Option Call)
    (s' : St), parse_call_details fuel call s = .ok oc s' →
    VFrame s s' ∧ (∀ c', oc = some c' → c'.no = call.no) := by
  intro fuel
  induction fuel with
  | zero => intro call s oc s' h; cases h
  | succ fuel ih =>
    intro call s oc s' h
    simp only [parse_call_details] at h
    rcases hrb : read_byte s with ⟨ob, s1⟩
    rw [hrb] at h
    have hop1 : VFrame s s1 := by
      have h2 := onlyPos_read_byte s
      rw [hrb] at h2
      exact vframe_of_onlyPos h2
    match ob with
    | none =>
      dsimp only at h
      cases h
      exact ⟨hop1, by intro c' hc'; cases hc'⟩
    | some c =>
      dsimp only at h
      by_cases hc0 : c = CALL_END
      · rw [if_pos hc0] at h
        cases h
        exact ⟨hop1, by intro c' hc'; cases hc'; rfl⟩
      · rw [if_neg hc0] at h
        by_cases hc1 : c = CALL_ARG
        · rw [if_pos hc1] at h
          cases hpv : parse_value fuel (read_uint s1).2 with
          | ok v s2 =>
            rw [hpv] at h
            dsimp only at h
            match v with
            | some value =>
              dsimp only at h
              obtain ⟨hf, hno⟩ := ih _ _ _ _ h
              refine ⟨vframe_trans hop1 (vframe_trans
                (vframe_of_onlyPos (onlyPos_read_uint s1))
                (vframe_trans (vframe_parse_value hpv) hf)), ?_⟩
              intro c' hc'
              exact hno c' hc'
            | none =>
              dsimp only at h
              obtain ⟨hf, hno⟩ := ih _ _ _ _ h
              exact ⟨vframe_trans hop1 (vframe_trans
                (vframe_of_onlyPos (onlyPos_read_uint s1))
                (vframe_trans (vframe_parse_value hpv) hf)), hno⟩
          | fatal => rw [hpv] at h; cases h
        · rw [if_neg hc1] at h
          by_cases hc2 : c = CALL_RET
          · rw [if_pos hc2] at h
            cases hpv : parse_value fuel s1 with
            | ok v s2 =>
              rw [hpv] at h
              dsimp only at h
              obtain ⟨hf, hno⟩ := ih _ _ _ _ h
              exact ⟨vframe_trans hop1
                (vframe_trans (vframe_parse_value hpv) hf), hno⟩
            | fatal => rw [hpv] at h; cases h
          · rw [if_neg hc2] at h
            cases h

theorem pfs_preserve (lcf : List Nat → Nat) (s : St) :
    (parse_function_sig lcf s).2.calls = s.calls ∧
    (parse_function_sig lcf s).2.next_call_no = s.next_call_no := by
  simp only [parse_function_sig]
  split
  next heq =>
    set base := setFunctions (lookup (read_uint s).2.functions (read_uint s).1).2
      (read_uint s).2 with hbdef
    set rs2 := (readStrings (u32 (read_uint (read_string base).2).1)
      (read_uint (read_string base).2).2).2 with hrsdef
    have hop : OnlyPos base rs2 := by
      rw [hrsdef]
      exact onlyPos_trans (onlyPos_read_string _)
        (onlyPos_trans (onlyPos_read_uint _) (onlyPos_readStrings _ _))
    split
    · constructor
      · rw [hop]; rfl
      · rw [hop]; rfl
    · constructor
      · rw [hop]; rfl
      · rw [hop]; rfl
  next sig heq =>
    split
    · set base := setFunctions (lookup (read_uint s).2.functions (read_uint s).1).2
        (read_uint s).2 with hbdef
      set fin := skipStrings (u32 (read_uint (skip_string base)).1)
        (read_uint (skip_string base)).2 with hfdef
      have hop : OnlyPos base fin := by
        rw [hfdef]
        exact onlyPos_trans (onlyPos_skip_string _)
          (onlyPos_trans (onlyPos_read_uint _) (onlyPos_skipStrings _ _))
      constructor
      · rw [hop]; rfl
      · rw [hop]; rfl
    · exact ⟨rfl, rfl⟩

theorem parse_enter_spec {lcf : List Nat → Nat} {fuel : Nat} {s : St}
    {r : Unit} {s' : St} (h : parse_enter lcf fuel s = .ok r s') :
    s'.next_call_no = s.next_call_no + 1 ∧
    (s'.calls = s.calls ∨
      ∃ c, s'.calls = s.calls ++ [c] ∧ c.no = s.next_call_no) ∧
    CFrame s s' := by
  simp only [parse_enter] at h
  by_cases hv4 : 4 ≤ s.version
  · rw [if_pos hv4] at h
    dsimp only at h
    set T : St := (read_uint s).2 with hT
    have hTcalls : T.calls = s.calls := rfl
    have hTncn : T.next_call_no = s.next_call_no := rfl
    have hTframe : CFrame s T := cframe_of_onlyPos (onlyPos_read_uint s)
    obtain ⟨hfc, hfn⟩ := pfs_preserve lcf T
    cases hpcd : parse_call_details fuel
        { no := (parse_function_sig lcf T).2.next_call_no,
          thread_id := u32 (read_uint s).1, sig := (parse_function_sig lcf T).1.id,
          flags := (parse_function_sig lcf T).1.flags, args := [], ret := none,
          call_time := none }
        (setNcn ((parse_function_sig lcf T).2.next_call_no + 1)
          (parse_function_sig lcf T).2) with
    | ok oc s5 =>
      rw [hpcd] at h
      obtain ⟨hvf, hno⟩ := pcd_spec _ _ _ _ _ hpcd
      have hc5 : s5.calls = (parse_function_sig lcf T).2.calls := hvf.2.2.1
      have hn5 : s5.next_call_no = (parse_function_sig lcf T).2.next_call_no + 1 :=
        hvf.2.2.2.1
      have hcf5 : CFrame s s5 :=
        cframe_trans hTframe
          (cframe_trans (cframe_parse_function_sig lcf T)
            (cframe_trans (cframe_setNcn (cframe_refl _) _)
              (cframe_of_vframe hvf)))
      match oc, h with
      | some c2, h =>
        dsimp only at h
        cases h
        refine ⟨by simp [setCalls, hn5, hfn, hTncn], ?_, cframe_setCalls hcf5 _⟩
        right
        exact ⟨c2, by simp [setCalls, hc5, hfc, hTcalls],
          by rw [hno c2 rfl]; simp [hfn, hTncn]⟩
      | none, h =>
        dsimp only at h
        cases h
        refine ⟨by simp [hn5, hfn, hTncn], ?_, hcf5⟩
        left
        rw [hc5, hfc, hTcalls]
    | fatal => rw [hpcd] at h; cases h
  · rw [if_neg hv4] at h
    dsimp only at h
    set T : St := s with hT
    obtain ⟨hfc, hfn⟩ := pfs_preserve lcf T
    cases hpcd : parse_call_details fuel
        { no := (parse_function_sig lcf T).2.next_call_no, thread_id := 0,
          sig := (parse_function_sig lcf T).1.id,
          flags := (parse_function_sig lcf T).1.flags, args := [], ret := none,
          call_time := none }
        (setNcn ((parse_function_sig lcf T).2.next_call_no + 1)
          (parse_function_sig lcf T).2) with
    | ok oc s5 =>
      rw [hpcd] at h
      obtain ⟨hvf, hno⟩ := pcd_spec _ _ _ _ _ hpcd
      have hc5 : s5.calls = (parse_function_sig lcf T).2.calls := hvf.2.2.1
      have hn5 : s5.next_call_no = (parse_function_sig lcf T).2.next_call_no + 1 :=
        hvf.2.2.2.1
      have hcf5 : CFrame s s5 :=
        cframe_trans (cframe_parse_function_sig lcf T)
          (cframe_trans (cframe_setNcn (cframe_refl _) _)
            (cframe_of_vframe hvf))
      match oc, h with
      | some c2, h =>
        dsimp only at h
        cases h
        refine ⟨by simp [setCalls, hn5, hfn], ?_, cframe_setCalls hcf5 _⟩
        right
        exact ⟨c2, by simp [setCalls, hc5, hfc], by rw [hno c2 rfl]; simp [hfn]⟩
      | none, h =>
        dsimp only at h
        cases h
        refine ⟨by simp [hn5, hfn], ?_, hcf5⟩
        left
        rw [hc5, hfc]
    | fatal => rw [hpcd] at h; cases h

theorem parse_leave_cframe {fuel : Nat} {s : St} {oc : Option Call} {s' : St}
    (h : parse_leave fuel s = .ok oc s') : CFrame s s' := by
  simp only [parse_leave] at h
  set T : St := (read_uint (read_uint s).2).2 with hT
  have hTf : CFrame s T :=
    cframe_of_onlyPos
      (onlyPos_trans (onlyPos_read_uint s) (onlyPos_read_uint (read_uint s).2))
  cases hex : extractCall T.calls (u32 (read_uint (read_uint s).2).1) with
  | none =>
    rw [hex] at h
    dsimp only at h
    injection h with h1 h2
    subst h2
    exact hTf
  | some p =>
    rw [hex] at h
    match p with
    | (call, rest) =>
      dsimp only at h
      obtain ⟨hvf, _⟩ := pcd_spec _ _ _ _ _ h
      exact cframe_trans (cframe_setCalls hTf rest) (cframe_of_vframe hvf)

theorem parse_call_cframe (lcf : List Nat → Nat) :
    ∀ (fuel : Nat) (s : St) (r : Option Call) (s' : St),
      parse_call lcf fuel s = .ok r s' → CFrame s s' := by
  intro fuel
  induction fuel with
  | zero => intro s r s' h; cases h
  | succ fuel ih =>
    intro s r s' h
    simp only [parse_call] at h
    rcases hrb : read_byte s with ⟨ob, s1⟩
    rw [hrb] at h
    have hop1 : CFrame s s1 := by
      have h2 := onlyPos_read_byte s
      rw [hrb] at h2
      exact cframe_of_onlyPos h2
    match ob with
    | none =>
      dsimp only at h
      match hcl : s1.calls, h with
      | [], h =>
        dsimp only at h
        cases h
        exact hop1
      | call :: rest, h =>
        dsimp only at h
        cases h
        exact cframe_setCalls hop1 rest
    | some c =>
      dsimp only at h
      by_cases hc0 : c = EVENT_ENTER
      · rw [if_pos hc0] at h
        cases hpe : parse_enter lcf fuel s1 with
        | ok u s2 =>
          rw [hpe] at h
          dsimp only at h
          exact cframe_trans hop1
            (cframe_trans (parse_enter_spec hpe).2.2 (ih _ _ _ h))
        | fatal => rw [hpe] at h; cases h
      · rw [if_neg hc0] at h
        by_cases hc1 : c = EVENT_LEAVE
        · rw [if_pos hc1] at h
          cases hpl : parse_leave fuel s1 with
          | ok oc2 s2 =>
            rw [hpl] at h
            match oc2, h with
            | some call, h =>
              dsimp only at h
              cases h
              exact cframe_trans hop1 (parse_leave_cframe hpl)
            | none, h =>
              dsimp only at h
              cases h
          | fatal => rw [hpl] at h; cases h
        · rw [if_neg hc1] at h
          cases h

/-- The value component of a parsing result, none on fatal. -/
def resVal {α : Type} : Res α → Option α
  | .ok a _ => some a
  | .fatal => none

/-- The enum signature table of the state of a parsing result. -/
def resEnums {α : Type} : Res α → Option (List (Option EnumSigState))
  | .ok _ s => some s.enums
  | .fatal => none

/-- The call number of the call returned by a parse_call result. -/
def resCallNo : Res (Option Call) → Option Nat
  | .ok (some c) _ => some c.no
  | _ => none

/-- A trivial external flag-lookup table used by the concrete witness
streams (the decoder treats the table as an out-of-scope collaborator). -/
def lcf0 : List Nat → Nat := fun _ => 0

theorem pfs_returns_cached {lcf : List Nat → Nat} {s : St}
    {sig : FunctionSigState}
    (h : s.functions.getD (read_uint s).1 none = some sig) :
    (parse_function_sig lcf s).1 = sig := by
  simp only [parse_function_sig]
  have h' : (read_uint s).2.functions.getD (read_uint s).1 none = some sig := h
  rw [lookup_of_getD h']
  dsimp only
  split
  · rfl
  · rfl

theorem pss_returns_cached {s : St} {sig : StructSigState}
    (h : s.structs.getD (read_uint s).1 none = some sig) :
    (parse_struct_sig s).1 = sig := by
  simp only [parse_struct_sig]
  have h' : (read_uint s).2.structs.getD (read_uint s).1 none = some sig := h
  rw [lookup_of_getD h']
  dsimp only
  split
  · rfl
  · rfl

theorem pes_returns_cached {s : St} {sig : EnumSigState}
    (h : s.enums.getD (read_uint s).1 none = some sig) :
    resVal (parse_enum_sig s) = some sig := by
  simp only [parse_enum_sig]
  have h' : (read_uint s).2.enums.getD (read_uint s).1 none = some sig := h
  rw [lookup_of_getD h']
  dsimp only
  split
  · rfl
  · rfl

theorem pbs_returns_cached {s : St} {sig : BitmaskSigState}
    (h : s.bitmasks.getD (read_uint s).1 none = some sig) :
    (parse_bitmask_sig s).1 = sig := by
  simp only [parse_bitmask_sig]
  have h' : (read_uint s).2.bitmasks.getD (read_uint s).1 none = some sig := h
  rw [lookup_of_getD h']
  dsimp only
  split
  · rfl
  · rfl

/-- C1 (amended): for every stream state from which parse_value
succeeds (a well-formed value on the stream) and on which the
bounds-checked scan scan_value32 succeeds (every string and blob
length field encountered fits 32 bits), scan_value started from the
same state succeeds and produces exactly the same successor state as
parse_value, advancing the file offset to exactly the same position;
the bounds check itself stops at that position too.  The restriction
is necessary: for a string or blob length field of 2^32 or more the
parse side reads only length mod 2^32 bytes, because file->read
truncates the length with an unsigned cast (trace_parser.cpp lines 768
and 718), while scan_value skips the full length, and the offsets
diverge (see the counterexample). -/
theorem scan_value_matches_parse_value (fuel : Nat) (s : St)
    (v : Option Value) (s' s'' : St) (hp : parse_value fuel s = .ok v s')
    (hb : scan_value32 fuel s = .ok () s'') :
    scan_value fuel s = .ok () s' ∧ s'' = s' :=
  (scan_parse_bounded_mutual fuel).1 s v s' s'' hp hb

/-- A one-byte NULL value stream used as the C1 witness. -/
def stC1 : St :=
  { data := [0], pos := 0, version := 4, functions := [], structs := [],
    enums := [], bitmasks := [], glGetErrorSig := none, next_call_no := 0,
    calls := [] }

/-- Witness for C1 at a concrete stream. -/
theorem scan_value_matches_parse_value_witness :
    parse_value 1 stC1 = .ok (some .null) (advance 1 stC1) ∧
    scan_value32 1 stC1 = .ok () (advance 1 stC1) ∧
    (scan_value 1 stC1 = .ok () (advance 1 stC1) ∧
      advance 1 stC1 = advance 1 stC1) :=
  ⟨rfl, rfl, scan_value_matches_parse_value 1 stC1 (some .null)
    (advance 1 stC1) (advance 1 stC1) rfl rfl⟩

theorem parse_value_string_step (fuel : Nat) {s s1 : St}
    (hrb : read_byte s = (some TYPE_STRING, s1)) :
    parse_value (fuel + 1) s =
      .ok (some (.string (read_string s1).1)) (read_string s1).2 := by
  simp only [parse_value]
  rw [hrb]
  dsimp only
  rw [if_neg (by decide : ¬ TYPE_STRING = TYPE_NULL),
      if_neg (by decide : ¬ TYPE_STRING = TYPE_FALSE),
      if_neg (by decide : ¬ TYPE_STRING = TYPE_TRUE),
      if_neg (by decide : ¬ TYPE_STRING = TYPE_SINT),
      if_neg (by decide : ¬ TYPE_STRING = TYPE_UINT),
      if_neg (by decide : ¬ TYPE_STRING = TYPE_FLOAT),
      if_neg (by decide : ¬ TYPE_STRING = TYPE_DOUBLE),
      if_pos rfl]

theorem scan_value_string_step (fuel : Nat) {s s1 : St}
    (hrb : read_byte s = (some TYPE_STRING, s1)) :
    scan_value (fuel + 1) s = .ok () (skip_string s1) := by
  simp only [scan_value]
  rw [hrb]
  dsimp only
  rw [if_neg (by decide : ¬ TYPE_STRING = TYPE_NULL),
      if_neg (by decide : ¬ TYPE_STRING = TYPE_FALSE),
      if_neg (by decide : ¬ TYPE_STRING = TYPE_TRUE),
      if_neg (by decide : ¬ TYPE_STRING = TYPE_SINT),
      if_neg (by decide : ¬ TYPE_STRING = TYPE_UINT),
      if_neg (by decide : ¬ TYPE_STRING = TYPE_FLOAT),
      if_neg (by decide : ¬ TYPE_STRING = TYPE_DOUBLE),
      if_pos rfl]

/-- The content of the oversized string: 2^32 bytes, so that the
stream carries a fully well-formed string value whose length field
does not fit 32 bits. -/
def bigStr : List Nat := List.replicate (2 ^ 32) 65

/-- A stream holding one well-formed TYPE_STRING value of length 2^32:
the tag byte, the varint length field 2^32, and 2^32 content bytes. -/
def stBigC1 : St :=
  { data := TYPE_STRING :: (enc (2 ^ 32) ++ bigStr), pos := 0, version := 4,
    functions := [], structs := [], enums := [], bitmasks := [],
    glGetErrorSig := none, next_call_no := 0, calls := [] }

/-- C1 counterexample: on a well-formed string value whose length
field is 2^32, parse_value stops right after the length field (the
unsigned cast of file->read at trace_parser.cpp line 768 truncates the
read length to 2^32 mod 2^32 = 0 bytes), while scan_value skips the
full 2^32 content bytes, so the two final offsets differ and the
unconditional claim fails. -/
theorem scan_parse_offset_divergence_cex :
    parse_value 1 stBigC1 =
      .ok (some (.string []))
        (advance (enc (2 ^ 32)).length (advance 1 stBigC1)) ∧
    scan_value 1 stBigC1 =
      .ok ()
        (advance (2 ^ 32) (advance (enc (2 ^ 32)).length (advance 1 stBigC1))) ∧
    (advance (2 ^ 32) (advance (enc (2 ^ 32)).length (advance 1 stBigC1))).pos ≠
      (advance (enc (2 ^ 32)).length (advance 1 stBigC1)).pos := by
  have hd0 : stBigC1.data.drop stBigC1.pos
      = TYPE_STRING :: (enc (2 ^ 32) ++ bigStr) := rfl
  have hrb := read_byte_of_drop hd0
  have hd1 : (advance 1 stBigC1).data.drop (advance 1 stBigC1).pos
      = enc (2 ^ 32) ++ bigStr := rfl
  have hru : read_uint (advance 1 stBigC1)
      = (2 ^ 32, advance (enc (2 ^ 32)).length (advance 1 stBigC1)) :=
    read_uint_of_drop (by norm_num) hd1
  have hrs : read_string (advance 1 stBigC1)
      = ([], advance (enc (2 ^ 32)).length (advance 1 stBigC1)) := by
    simp only [read_string]
    rw [hru]
    dsimp only
    rw [if_pos (by norm_num : (2 ^ 32 : Nat) ≠ 0)]
    have hu : u32 (2 ^ 32) = 0 := by norm_num [u32]
    rw [hu, fread_zero]
  have hss : skip_string (advance 1 stBigC1)
      = advance (2 ^ 32) (advance (enc (2 ^ 32)).length (advance 1 stBigC1)) := by
    simp only [skip_string]
    rw [hru]
    dsimp only
    have hd2 : (advance (enc (2 ^ 32)).length (advance 1 stBigC1)).data.drop
        (advance (enc (2 ^ 32)).length (advance 1 stBigC1)).pos
        = bigStr ++ [] := by
      rw [List.append_nil, drop_advance]
      exact drop_append_of_drop hd1
    have hbl : bigStr.length = 2 ^ 32 := by
      rw [bigStr]; exact List.length_replicate _ _
    have h3 := @fskip_of_drop
      (advance (enc (2 ^ 32)).length (advance 1 stBigC1)) bigStr [] hd2
    rw [hbl] at h3
    exact h3
  refine ⟨?_, ?_, ?_⟩
  · have h := parse_value_string_step 0 hrb
    rw [hrs] at h
    exact h
  · have h := scan_value_string_step 0 hrb
    rw [hss] at h
    exact h
  · simp only [advance]
    omega

/-- C2: once a signature id has resolved during a decoding session,
the resolution is stable: any parse_call step preserves every
resolved entry of all four signature tables, and each of the four
signature-lookup operations applied to an already-resolved id returns
exactly the cached signature (the identical object: signatures are
interned once per id and never overwritten, so pointer identity in
the source corresponds to identity of the stored record here). -/
theorem signature_resolution_stable :
    (∀ (lcf : List Nat → Nat) (fuel : Nat) (s : St) (r : Option Call)
      (s' : St), parse_call lcf fuel s = .ok r s' →
      stable s.functions s'.functions ∧ stable s.structs s'.structs ∧
      stable s.enums s'.enums ∧ stable s.bitmasks s'.bitmasks) ∧
    (∀ (lcf : List Nat → Nat) (s : St) (sig : FunctionSigState),
      s.functions.getD (read_uint s).1 none = some sig →
      (parse_function_sig lcf s).1 = sig) ∧
    (∀ (s : St) (sig : StructSigState),
      s.structs.getD (read_uint s).1 none = some sig →
      (parse_struct_sig s).1 = sig) ∧
    (∀ (s : St) (sig : EnumSigState),
      s.enums.getD (read_uint s).1 none = some sig →
      resVal (parse_enum_sig s) = some sig) ∧
    (∀ (s : St) (sig : BitmaskSigState),
      s.bitmasks.getD (read_uint s).1 none = some sig →
      (parse_bitmask_sig s).1 = sig) := by
  refine ⟨?_, ?_, ?_, ?_, ?_⟩
  · intro lcf fuel s r s' h
    obtain ⟨_, _, hf, hs, he, hb⟩ := parse_call_cframe lcf fuel s r s' h
    exact ⟨hf, hs, he, hb⟩
  · intro lcf s sig h
    exact pfs_returns_cached h
  · intro s sig h
    exact pss_returns_cached h
  · intro s sig h
    exact pes_returns_cached h
  · intro s sig h
    exact pbs_returns_cached h

/-- An empty stream with no pending calls (C2 witness, part 1). -/
def stC2a : St :=
  { data := [], pos := 0, version := 4, functions := [], structs := [],
    enums := [], bitmasks := [], glGetErrorSig := none, next_call_no := 0,
    calls := [] }

/-- A cached function signature for id 0 (C2 witness). -/
def sigC2f : FunctionSigState :=
  { id := 0, name := [102], arg_names := [], flags := 0, offset := 1 }

/-- A cached struct signature for id 0 (C2 witness). -/
def sigC2s : StructSigState :=
  { id := 0, name := [115], member_names := [], offset := 1 }

/-- A cached enum signature for id 0 (C2 witness). -/
def sigC2e : EnumSigState :=
  { id := 0, values := [([65], 0)], offset := 1 }

/-- A cached bitmask signature for id 0 (C2 witness). -/
def sigC2b : BitmaskSigState :=
  { id := 0, flags := [([66], 1)], offset := 1 }

/-- A state whose four tables all have id 0 resolved and whose stream
presents id 0 next (C2 witness, parts 2 to 5). -/
def stC2b : St :=
  { data := [0], pos := 0, version := 4, functions := [some sigC2f],
    structs := [some sigC2s], enums := [some sigC2e],
    bitmasks := [some sigC2b], glGetErrorSig := none, next_call_no := 0,
    calls := [] }

/-- Witness for C2 at concrete inputs. -/
theorem signature_resolution_stable_witness :
    (parse_call lcf0 1 stC2a = .ok none stC2a ∧
      (stable stC2a.functions stC2a.functions ∧
       stable stC2a.structs stC2a.structs ∧
       stable stC2a.enums stC2a.enums ∧
       stable stC2a.bitmasks stC2a.bitmasks)) ∧
    (stC2b.functions.getD (read_uint stC2b).1 none = some sigC2f ∧
      (parse_function_sig lcf0 stC2b).1 = sigC2f) ∧
    (stC2b.structs.getD (read_uint stC2b).1 none = some sigC2s ∧
      (parse_struct_sig stC2b).1 = sigC2s) ∧
    (stC2b.enums.getD (read_uint stC2b).1 none = some sigC2e ∧
      resVal (parse_enum_sig stC2b) = some sigC2e) ∧
    (stC2b.bitmasks.getD (read_uint stC2b).1 none = some sigC2b ∧
      (parse_bitmask_sig stC2b).1 = sigC2b) := by
  refine ⟨⟨rfl, signature_resolution_stable.1 lcf0 1 stC2a none stC2a rfl⟩,
    ⟨by decide, signature_resolution_stable.2.1 lcf0 stC2b sigC2f (by decide)⟩,
    ⟨by decide, signature_resolution_stable.2.2.1 stC2b sigC2s (by decide)⟩,
    ⟨by decide, signature_resolution_stable.2.2.2.1 stC2b sigC2e (by decide)⟩,
    ⟨by decide, signature_resolution_stable.2.2.2.2 stC2b sigC2b (by decide)⟩⟩

/-- C4: decoding the little-endian base-128 varint encoding of any
unsigned 64-bit integer u with read_uint yields u, consuming exactly
the encoding. -/
theorem varint_roundtrip (u : Nat) (rest : List Nat) (s : St)
    (hu : u < 2 ^ 64) (h : s.data.drop s.pos = enc u ++ rest) :
    read_uint s = (u, advance (enc u).length s) :=
  read_uint_of_drop hu h

/-- The encoding of 300 laid out on a stream (C4 witness). -/
def stC4 : St :=
  { data := [172, 2], pos := 0, version := 4, functions := [], structs := [],
    enums := [], bitmasks := [], glGetErrorSig := none, next_call_no := 0,
    calls := [] }

/-- Witness for C4 at u = 300. -/
theorem varint_roundtrip_witness :
    (300 < 2 ^ 64 ∧ stC4.data.drop stC4.pos = enc 300 ++ []) ∧
    read_uint stC4 = (300, advance (enc 300).length stC4) :=
  ⟨⟨by decide, by decide⟩,
    varint_roundtrip 300 [] stC4 (by decide) (by decide)⟩

/-- C5: when parse_call reads EOF at the event-tag position, it
dequeues the oldest pending call (the front of the buffer), sets
CALL_FLAG_INCOMPLETE on it, applies adjust_call_flags and returns it;
with an empty buffer it returns null. -/
theorem parse_call_eof_spec (lcf : List Nat → Nat) (fuel : Nat) (s : St)
    (h : s.data.length ≤ s.pos) :
    parse_call lcf (fuel + 1) s =
      match s.calls with
      | [] => .ok none s
      | call :: rest =>
        .ok (some (adjust_call_flags s.glGetErrorSig
          { call with flags := call.flags ||| CALL_FLAG_INCOMPLETE }))
          (setCalls rest s) := by
  simp only [parse_call]
  rw [read_byte_none_of_drop h]
  dsimp only
  cases s.calls with
  | nil => rfl
  | cons call rest => rfl

/-- A pending call used by the C5 witness. -/
def cC5 : Call :=
  { no := 3, thread_id := 0, sig := 0, flags := 4, args := [], ret := none,
    call_time := none }

/-- An exhausted stream with one pending call (C5 witness). -/
def stC5 : St :=
  { data := [], pos := 0, version := 4, functions := [], structs := [],
    enums := [], bitmasks := [], glGetErrorSig := none, next_call_no := 4,
    calls := [cC5] }

/-- Witness for C5 at a concrete state. -/
theorem parse_call_eof_spec_witness :
    stC5.data.length ≤ stC5.pos ∧
    parse_call lcf0 (0 + 1) stC5 =
      (match stC5.calls with
       | [] => .ok none stC5
       | call :: rest =>
         .ok (some (adjust_call_flags stC5.glGetErrorSig
           { call with flags := call.flags ||| CALL_FLAG_INCOMPLETE }))
           (setCalls rest stC5)) :=
  ⟨by decide, parse_call_eof_spec lcf0 0 stC5 (by decide)⟩

/-- A version-3 stream carrying a single enum value whose signature has
not been interned yet (C6 counterexample). -/
def stC6 : St :=
  { data := [8, 0, 1, 1, 65, 4, 0], pos := 0, version := 3, functions := [],
    structs := [], enums := [], bitmasks := [], glGetErrorSig := none,
    next_call_no := 0, calls := [] }

/-- Counterexample for C6 as stated: scanning a TYPE_ENUM value whose
enum signature id is unseen interns a new enum signature (scan_enum
calls parse_enum_sig), so the signature tables are not left unchanged
by scan_value. -/
theorem scan_value_interns_enum_cex :
    resEnums (scan_value 2 stC6) =
      some [some { id := 0, values := [([65], 0)], offset := 7 }] ∧
    resEnums (scan_value 2 stC6) ≠ some stC6.enums := by
  constructor
  · decide
  · decide

/-- C6 as amended: scan_value advances the stream without
materializing values and without touching the pending-call buffer,
the call counter, the glGetError cache, the stream content, the
version or the function signature table; the struct, enum and bitmask
tables may gain entries for signatures first sighted during the scan
(exactly as parse_value would intern them), and every already
resolved entry of those tables is preserved unchanged. -/
theorem scan_value_state_effect (fuel : Nat) (s : St) (r : Unit) (s' : St)
    (h : scan_value fuel s = .ok r s') :
    s'.data = s.data ∧ s'.version = s.version ∧ s'.calls = s.calls ∧
    s'.next_call_no = s.next_call_no ∧ s'.glGetErrorSig = s.glGetErrorSig ∧
    s'.functions = s.functions ∧ stable s.structs s'.structs ∧
    stable s.enums s'.enums ∧ stable s.bitmasks s'.bitmasks :=
  vframe_scan_value h

/-- Witness for the amended C6 at a concrete scan. -/
theorem scan_value_state_effect_witness :
    scan_value 1 stC1 = .ok () (advance 1 stC1) ∧
    ((advance 1 stC1).data = stC1.data ∧
     (advance 1 stC1).version = stC1.version ∧
     (advance 1 stC1).calls = stC1.calls ∧
     (advance 1 stC1).next_call_no = stC1.next_call_no ∧
     (advance 1 stC1).glGetErrorSig = stC1.glGetErrorSig ∧
     (advance 1 stC1).functions = stC1.functions ∧
     stable stC1.structs (advance 1 stC1).structs ∧
     stable stC1.enums (advance 1 stC1).enums ∧
     stable stC1.bitmasks (advance 1 stC1).bitmasks) :=
  ⟨rfl, scan_value_state_effect 1 stC1 () (advance 1 stC1) rfl⟩

/-- C7: adjust_call_flags ORs CALL_FLAG_VERBOSE into the call flags
exactly when the call signature is the cached glGetError signature
(pointer equality in the source, id equality here, with a null cache
matching nothing), the call has a return value, and that return value
converts to signed integer 0; every other field of the call is left
unmodified. -/
theorem adjust_call_flags_spec (gid : Option Nat) (call : Call) :
    ((adjust_call_flags gid call).flags =
      if gid = some call.sig ∧ call.ret.map Value.toSInt = some 0 then
        call.flags ||| CALL_FLAG_VERBOSE
      else call.flags) ∧
    (adjust_call_flags gid call).no = call.no ∧
    (adjust_call_flags gid call).thread_id = call.thread_id ∧
    (adjust_call_flags gid call).sig = call.sig ∧
    (adjust_call_flags gid call).args = call.args ∧
    (adjust_call_flags gid call).ret = call.ret ∧
    (adjust_call_flags gid call).call_time = call.call_time := by
  by_cases hc : gid = some call.sig ∧ call.ret.map Value.toSInt = some 0
  · rw [adjust_call_flags, if_pos hc, if_pos hc]
    exact ⟨rfl, rfl, rfl, rfl, rfl, rfl, rfl⟩
  · rw [adjust_call_flags, if_neg hc, if_neg hc]
    exact ⟨rfl, rfl, rfl, rfl, rfl, rfl, rfl⟩

/-- C8: restoring a bookmark taken with getBookmark restores exactly
the captured file offset and next_call_no, empties the pending-call
buffer, and leaves all four signature tables of the state being
restored into unchanged. -/
theorem setBookmark_spec (s₁ s₂ : St) :
    (setBookmark (getBookmark s₁) s₂).pos = s₁.pos ∧
    (setBookmark (getBookmark s₁) s₂).next_call_no = s₁.next_call_no ∧
    (setBookmark (getBookmark s₁) s₂).calls = [] ∧
    (setBookmark (getBookmark s₁) s₂).functions = s₂.functions ∧
    (setBookmark (getBookmark s₁) s₂).structs = s₂.structs ∧
    (setBookmark (getBookmark s₁) s₂).enums = s₂.enums ∧
    (setBookmark (getBookmark s₁) s₂).bitmasks = s₂.bitmasks :=
  ⟨rfl, rfl, rfl, rfl, rfl, rfl, rfl⟩

/-- A conformant two-thread stream: two ENTER events (function id 0,
name f, no arguments; the second sighting reuses the interned id)
followed by the LEAVE of call 1 and then the LEAVE of call 0, as an
encoder produces when two concurrent calls complete out of ENTER
order (C9 counterexample). -/
def st9 : St :=
  { data := [0, 0, 0, 1, 102, 0, 4,
             0, 0, 0, 4,
             1, 0, 1, 4,
             1, 0, 0, 4],
    pos := 0, version := 4, functions := [], structs := [], enums := [],
    bitmasks := [], glGetErrorSig := none, next_call_no := 0, calls := [] }

/-- The call number returned by the second of two successive
parse_call invocations. -/
def secondCallNo (lcf : List Nat → Nat) (fuel : Nat) (s : St) : Option Nat :=
  match parse_call lcf fuel s with
  | .ok _ s' => resCallNo (parse_call lcf fuel s')
  | .fatal => none

/-- Counterexample for C9 as stated: on the conformant stream st9 the
first parse_call returns the call numbered 1 and the second returns
the call numbered 0, so the sequence of returned call numbers is not
strictly increasing from 0. -/
theorem parse_call_out_of_order_cex :
    resCallNo (parse_call lcf0 32 st9) = some 1 ∧
    secondCallNo lcf0 32 st9 = some 0 :=
  ⟨rfl, rfl⟩

/-- C9 as amended: the call numbers are assigned densely from 0 at
ENTER, in stream order: each successful parse_enter increments
next_call_no by exactly one and, when it enqueues the new call, that
call carries the number next_call_no had on entry; the calls returned
by parse_call carry these numbers but may surface out of ENTER order
when LEAVE events interleave. -/
theorem parse_enter_assigns_dense_call_no (lcf : List Nat → Nat)
    (fuel : Nat) (s : St) (r : Unit) (s' : St)
    (h : parse_enter lcf fuel s = .ok r s') :
    s'.next_call_no = s.next_call_no + 1 ∧
    (s'.calls.map Call.no = s.calls.map Call.no ∨
      s'.calls.map Call.no = s.calls.map Call.no ++ [s.next_call_no]) := by
  obtain ⟨hn, hc, _⟩ := parse_enter_spec h
  refine ⟨hn, ?_⟩
  cases hc with
  | inl he => left; rw [he]
  | inr he =>
    obtain ⟨c, hcl, hno⟩ := he
    right
    rw [hcl, List.map_append, List.map_cons, List.map_nil, hno]

/-- A single-ENTER stream (C9 witness). -/
def stE9 : St :=
  { data := [0, 0, 1, 102, 0, 4], pos := 0, version := 4, functions := [],
    structs := [], enums := [], bitmasks := [], glGetErrorSig := none,
    next_call_no := 0, calls := [] }

/-- The state after parsing the single ENTER of stE9. -/
def stE9' : St :=
  { data := [0, 0, 1, 102, 0, 4], pos := 6, version := 4,
    functions :=
      [some { id := 0, name := [102], arg_names := [], flags := 0, offset := 5 }],
    structs := [], enums := [], bitmasks := [], glGetErrorSig := none,
    next_call_no := 1,
    calls :=
      [{ no := 0, thread_id := 0, sig := 0, flags := 0, args := [],
         ret := none, call_time := none }] }

/-- Witness for the amended C9 at a concrete ENTER. -/
theorem parse_enter_assigns_dense_call_no_witness :
    parse_enter lcf0 8 stE9 = .ok () stE9' ∧
    stE9'.next_call_no = stE9.next_call_no + 1 ∧
    (stE9'.calls.map Call.no = stE9.calls.map Call.no ∨
      stE9'.calls.map Call.no = stE9.calls.map Call.no ++ [stE9.next_call_no]) :=
  ⟨rfl, (parse_enter_assigns_dense_call_no lcf0 8 stE9 () stE9' rfl).1,
    (parse_enter_assigns_dense_call_no lcf0 8 stE9 () stE9' rfl).2⟩

/-- A stream consisting of a single LEAVE event tag with nothing
pending (C10 failing input). -/
def st10 : St :=
  { data := [1], pos := 0, version := 4, functions := [], structs := [],
    enums := [], bitmasks := [], glGetErrorSig := none, next_call_no := 0,
    calls := [] }

/-- C10 evaluation: at a LEAVE event with no matching pending call,
parse_leave returns a null call, and parse_call then passes that null
pointer to adjust_call_flags, which dereferences it (modelled as the
fatal result).  The claim that parse_leave is always non-null at a
LEAVE tag is therefore violated by the code. -/
theorem parse_leave_null_eval :
    parse_leave 4 (advance 1 st10) = .ok none (advance 1 st10) ∧
    parse_call lcf0 5 st10 = Res.fatal :=
  ⟨rfl, rfl⟩

theorem setFunctions_self (s : St) : setFunctions s.functions s = s := rfl

theorem setStructs_self (s : St) : setStructs s.structs s = s := rfl

theorem setEnums_self (s : St) : setEnums s.enums s = s := rfl

theorem setBitmasks_self (s : St) : setBitmasks s.bitmasks s = s := rfl

theorem pfs_cached_skip {lcf : List Nat → Nat} {s : St} {sig : FunctionSigState}
    (h : s.functions.getD (read_uint s).1 none = some sig)
    (hlt : (read_uint s).2.pos < sig.offset) :
    parse_function_sig lcf s =
      (sig, skipStrings (u32 (read_uint (skip_string (read_uint s).2)).1)
        (read_uint (skip_string (read_uint s).2)).2) := by
  simp only [parse_function_sig]
  have h' : (read_uint s).2.functions.getD (read_uint s).1 none = some sig := h
  rw [lookup_of_getD h']
  dsimp only
  rw [setFunctions_self, if_pos hlt]

theorem pfs_cached_noskip {lcf : List Nat → Nat} {s : St} {sig : FunctionSigState}
    (h : s.functions.getD (read_uint s).1 none = some sig)
    (hge : ¬ (read_uint s).2.pos < sig.offset) :
    parse_function_sig lcf s = (sig, (read_uint s).2) := by
  simp only [parse_function_sig]
  have h' : (read_uint s).2.functions.getD (read_uint s).1 none = some sig := h
  rw [lookup_of_getD h']
  dsimp only
  rw [setFunctions_self, if_neg hge]

theorem pss_cached_skip {s : St} {sig : StructSigState}
    (h : s.structs.getD (read_uint s).1 none = some sig)
    (hlt : (read_uint s).2.pos < sig.offset) :
    parse_struct_sig s =
      (sig, skipStrings (u32 (read_uint (skip_string (read_uint s).2)).1)
        (read_uint (skip_string (read_uint s).2)).2) := by
  simp only [parse_struct_sig]
  have h' : (read_uint s).2.structs.getD (read_uint s).1 none = some sig := h
  rw [lookup_of_getD h']
  dsimp only
  rw [setStructs_self, if_pos hlt]

theorem pss_cached_noskip {s : St} {sig : StructSigState}
    (h : s.structs.getD (read_uint s).1 none = some sig)
    (hge : ¬ (read_uint s).2.pos < sig.offset) :
    parse_struct_sig s = (sig, (read_uint s).2) := by
  simp only [parse_struct_sig]
  have h' : (read_uint s).2.structs.getD (read_uint s).1 none = some sig := h
  rw [lookup_of_getD h']
  dsimp only
  rw [setStructs_self, if_neg hge]

theorem pes_cached_skip {s : St} {sig : EnumSigState}
    (h : s.enums.getD (read_uint s).1 none = some sig)
    (hlt : (read_uint s).2.pos < sig.offset) :
    parse_enum_sig s =
      .ok sig (skipNameSint (s32Iters (read_uint (read_uint s).2).1)
        (read_uint (read_uint s).2).2) := by
  simp only [parse_enum_sig]
  have h' : (read_uint s).2.enums.getD (read_uint s).1 none = some sig := h
  rw [lookup_of_getD h']
  dsimp only
  rw [setEnums_self, if_pos hlt]

theorem pes_cached_noskip {s : St} {sig : EnumSigState}
    (h : s.enums.getD (read_uint s).1 none = some sig)
    (hge : ¬ (read_uint s).2.pos < sig.offset) :
    parse_enum_sig s = .ok sig (read_uint s).2 := by
  simp only [parse_enum_sig]
  have h' : (read_uint s).2.enums.getD (read_uint s).1 none = some sig := h
  rw [lookup_of_getD h']
  dsimp only
  rw [setEnums_self, if_neg hge]

theorem pbs_cached_skip {s : St} {sig : BitmaskSigState}
    (h : s.bitmasks.getD (read_uint s).1 none = some sig)
    (hlt : (read_uint s).2.pos < sig.offset) :
    parse_bitmask_sig s =
      (sig, skipNameUint (s32Iters (read_uint (read_uint s).2).1)
        (read_uint (read_uint s).2).2) := by
  simp only [parse_bitmask_sig]
  have h' : (read_uint s).2.bitmasks.getD (read_uint s).1 none = some sig := h
  rw [lookup_of_getD h']
  dsimp only
  rw [setBitmasks_self, if_pos hlt]

theorem pbs_cached_noskip {s : St} {sig : BitmaskSigState}
    (h : s.bitmasks.getD (read_uint s).1 none = some sig)
    (hge : ¬ (read_uint s).2.pos < sig.offset) :
    parse_bitmask_sig s = (sig, (read_uint s).2) := by
  simp only [parse_bitmask_sig]
  have h' : (read_uint s).2.bitmasks.getD (read_uint s).1 none = some sig := h
  rw [lookup_of_getD h']
  dsimp only
  rw [setBitmasks_self, if_neg hge]

theorem drop_advance_of_drop {s : St} {xs rest : List Nat}
    (h : s.data.drop s.pos = xs ++ rest) :
    (advance xs.length s).data.drop (advance xs.length s).pos = rest := by
  rw [drop_advance]
  exact drop_append_of_drop h

theorem s32Iters_eq {n : Nat} (h : n < 2 ^ 31) : s32Iters n = n := by
  unfold s32Iters
  rw [Nat.mod_eq_of_lt (by omega : n < 2 ^ 32), if_pos h]

theorem fn_skip_exact {lcf : List Nat → Nat} {s : St} {id : Nat}
    {sig : FunctionSigState} {name : List Nat} {args : List (List Nat)}
    {rest : List Nat}
    (hid : id < 2 ^ 64) (hname : name.length < 2 ^ 64)
    (hargs : args.length < 2 ^ 32)
    (hargnames : ∀ x ∈ args, x.length < 2 ^ 64)
    (hcache : s.functions.getD id none = some sig)
    (hdrop : s.data.drop s.pos =
      enc id ++ (encString name ++ (enc args.length ++ (encStrings args ++ rest))))
    (hoff : s.pos + (enc id).length < sig.offset) :
    parse_function_sig lcf s =
      (sig, advance ((enc id).length + (encFunBody name args).length) s) := by
  have hru : read_uint s = (id, advance (enc id).length s) :=
    read_uint_of_drop hid hdrop
  have hc1 : s.functions.getD (read_uint s).1 none = some sig := by
    rw [hru]; exact hcache
  have hlt : (read_uint s).2.pos < sig.offset := by rw [hru]; exact hoff
  rw [pfs_cached_skip hc1 hlt, hru]
  have hd1 := drop_advance_of_drop hdrop
  have hss := skip_string_of_drop hname hd1
  rw [hss]
  have hd2 := drop_advance_of_drop hd1
  have hru2 := read_uint_of_drop (by omega : args.length < 2 ^ 64) hd2
  rw [hru2]
  have hd3 := drop_advance_of_drop hd2
  have hu32 : u32 args.length = args.length := Nat.mod_eq_of_lt hargs
  rw [hu32]
  rw [skipStrings_of_drop args rest _ hargnames hd3]
  rw [advance_advance, advance_advance, advance_advance]
  have hlen : (enc id).length + ((encString name).length +
      ((enc args.length).length + (encStrings args).length)) =
      (enc id).length + (encFunBody name args).length := by
    simp only [encFunBody, List.length_append]
    omega
  rw [hlen]

theorem struct_skip_exact {s : St} {id : Nat} {sig : StructSigState}
    {name : List Nat} {members : List (List Nat)} {rest : List Nat}
    (hid : id < 2 ^ 64) (hname : name.length < 2 ^ 64)
    (hmem : members.length < 2 ^ 32)
    (hmemnames : ∀ x ∈ members, x.length < 2 ^ 64)
    (hcache : s.structs.getD id none = some sig)
    (hdrop : s.data.drop s.pos =
      enc id ++ (encString name ++ (enc members.length ++ (encStrings members ++ rest))))
    (hoff : s.pos + (enc id).length < sig.offset) :
    parse_struct_sig s =
      (sig, advance ((enc id).length + (encStructBody name members).length) s) := by
  have hru : read_uint s = (id, advance (enc id).length s) :=
    read_uint_of_drop hid hdrop
  have hc1 : s.structs.getD (read_uint s).1 none = some sig := by
    rw [hru]; exact hcache
  have hlt : (read_uint s).2.pos < sig.offset := by rw [hru]; exact hoff
  rw [pss_cached_skip hc1 hlt, hru]
  have hd1 := drop_advance_of_drop hdrop
  have hss := skip_string_of_drop hname hd1
  rw [hss]
  have hd2 := drop_advance_of_drop hd1
  have hru2 := read_uint_of_drop (by omega : members.length < 2 ^ 64) hd2
  rw [hru2]
  have hd3 := drop_advance_of_drop hd2
  have hu32 : u32 members.length = members.length := Nat.mod_eq_of_lt hmem
  rw [hu32]
  rw [skipStrings_of_drop members rest _ hmemnames hd3]
  rw [advance_advance, advance_advance, advance_advance]
  have hlen : (enc id).length + ((encString name).length +
      ((enc members.length).length + (encStrings members).length)) =
      (enc id).length + (encStructBody name members).length := by
    simp only [encStructBody, List.length_append]
    omega
  rw [hlen]

theorem enum_skip_exact {s : St} {id : Nat} {sig : EnumSigState}
    {values : List (List Nat × Int)} {rest : List Nat}
    (hid : id < 2 ^ 64) (hvals : values.length < 2 ^ 31)
    (hvalnames : ∀ p ∈ values, p.1.length < 2 ^ 64)
    (hcache : s.enums.getD id none = some sig)
    (hdrop : s.data.drop s.pos =
      enc id ++ (enc values.length ++
        ((values.map (fun p => encString p.1 ++ encSint p.2)).flatten ++ rest)))
    (hoff : s.pos + (enc id).length < sig.offset) :
    parse_enum_sig s =
      .ok sig (advance ((enc id).length + (encEnumBody values).length) s) := by
  have hru : read_uint s = (id, advance (enc id).length s) :=
    read_uint_of_drop hid hdrop
  have hc1 : s.enums.getD (read_uint s).1 none = some sig := by
    rw [hru]; exact hcache
  have hlt : (read_uint s).2.pos < sig.offset := by rw [hru]; exact hoff
  rw [pes_cached_skip hc1 hlt, hru]
  have hd1 := drop_advance_of_drop hdrop
  have hru2 := read_uint_of_drop (by omega : values.length < 2 ^ 64) hd1
  rw [hru2]
  have hd2 := drop_advance_of_drop hd1
  rw [s32Iters_eq hvals]
  rw [skipNameSint_of_drop values rest _ hvalnames hd2]
  rw [advance_advance, advance_advance]
  have hlen : (enc id).length + ((enc values.length).length +
      ((values.map (fun p => encString p.1 ++ encSint p.2)).flatten).length) =
      (enc id).length + (encEnumBody values).length := by
    simp only [encEnumBody, List.length_append]
  rw [hlen]

theorem bitmask_skip_exact {s : St} {id : Nat} {sig : BitmaskSigState}
    {flags : List (List Nat × Nat)} {rest : List Nat}
    (hid : id < 2 ^ 64) (hflags : flags.length < 2 ^ 31)
    (hflagnames : ∀ p ∈ flags, p.1.length < 2 ^ 64)
    (hcache : s.bitmasks.getD id none = some sig)
    (hdrop : s.data.drop s.pos =
      enc id ++ (enc flags.length ++
        ((flags.map (fun p => encString p.1 ++ enc p.2)).flatten ++ rest)))
    (hoff : s.pos + (enc id).length < sig.offset) :
    parse_bitmask_sig s =
      (sig, advance ((enc id).length + (encBitmaskBody flags).length) s) := by
  have hru : read_uint s = (id, advance (enc id).length s) :=
    read_uint_of_drop hid hdrop
  have hc1 : s.bitmasks.getD (read_uint s).1 none = some sig := by
    rw [hru]; exact hcache
  have hlt : (read_uint s).2.pos < sig.offset := by rw [hru]; exact hoff
  rw [pbs_cached_skip hc1 hlt, hru]
  have hd1 := drop_advance_of_drop hdrop
  have hru2 := read_uint_of_drop (by omega : flags.length < 2 ^ 64) hd1
  rw [hru2]
  have hd2 := drop_advance_of_drop hd1
  rw [s32Iters_eq hflags]
  rw [skipNameUint_of_drop flags rest _ hflagnames hd2]
  rw [advance_advance, advance_advance]
  have hlen : (enc id).length + ((enc flags.length).length +
      ((flags.map (fun p => encString p.1 ++ enc p.2)).flatten).length) =
      (enc id).length + (encBitmaskBody flags).length := by
    simp only [encBitmaskBody, List.length_append]
  rw [hlen]

theorem fn_noskip_exact {lcf : List Nat → Nat} {s : St} {id : Nat}
    {sig : FunctionSigState} {rest : List Nat}
    (hid : id < 2 ^ 64)
    (hcache : s.functions.getD id none = some sig)
    (hdrop : s.data.drop s.pos = enc id ++ rest)
    (hoff : sig.offset ≤ s.pos + (enc id).length) :
    parse_function_sig lcf s = (sig, advance (enc id).length s) := by
  have hru : read_uint s = (id, advance (enc id).length s) :=
    read_uint_of_drop hid hdrop
  have hc1 : s.functions.getD (read_uint s).1 none = some sig := by
    rw [hru]; exact hcache
  have hge : ¬ (read_uint s).2.pos < sig.offset := by
    rw [hru]
    simp only [advance]
    omega
  rw [pfs_cached_noskip hc1 hge, hru]

theorem struct_noskip_exact {s : St} {id : Nat} {sig : StructSigState}
    {rest : List Nat}
    (hid : id < 2 ^ 64)
    (hcache : s.structs.getD id none = some sig)
    (hdrop : s.data.drop s.pos = enc id ++ rest)
    (hoff : sig.offset ≤ s.pos + (enc id).length) :
    parse_struct_sig s = (sig, advance (enc id).length s) := by
  have hru : read_uint s = (id, advance (enc id).length s) :=
    read_uint_of_drop hid hdrop
  have hc1 : s.structs.getD (read_uint s).1 none = some sig := by
    rw [hru]; exact hcache
  have hge : ¬ (read_uint s).2.pos < sig.offset := by
    rw [hru]
    simp only [advance]
    omega
  rw [pss_cached_noskip hc1 hge, hru]

theorem enum_noskip_exact {s : St} {id : Nat} {sig : EnumSigState}
    {rest : List Nat}
    (hid : id < 2 ^ 64)
    (hcache : s.enums.getD id none = some sig)
    (hdrop : s.data.drop s.pos = enc id ++ rest)
    (hoff : sig.offset ≤ s.pos + (enc id).length) :
    parse_enum_sig s = .ok sig (advance (enc id).length s) := by
  have hru : read_uint s = (id, advance (enc id).length s) :=
    read_uint_of_drop hid hdrop
  have hc1 : s.enums.getD (read_uint s).1 none = some sig := by
    rw [hru]; exact hcache
  have hge : ¬ (read_uint s).2.pos < sig.offset := by
    rw [hru]
    simp only [advance]
    omega
  rw [pes_cached_noskip hc1 hge, hru]

theorem bitmask_noskip_exact {s : St} {id : Nat} {sig : BitmaskSigState}
    {rest : List Nat}
    (hid : id < 2 ^ 64)
    (hcache : s.bitmasks.getD id none = some sig)
    (hdrop : s.data.drop s.pos = enc id ++ rest)
    (hoff : sig.offset ≤ s.pos + (enc id).length) :
    parse_bitmask_sig s = (sig, advance (enc id).length s) := by
  have hru : read_uint s = (id, advance (enc id).length s) :=
    read_uint_of_drop hid hdrop
  have hc1 : s.bitmasks.getD (read_uint s).1 none = some sig := by
    rw [hru]; exact hcache
  have hge : ¬ (read_uint s).2.pos < sig.offset := by
    rw [hru]
    simp only [advance]
    omega
  rw [pbs_cached_noskip hc1 hge, hru]

/-- C3 (amended): for every signature kind, a sighting of an
already-interned id whose read offset after the id is below the
recorded first-seen offset consumes exactly the retransmitted
signature body and returns the cached signature without re-interning
(the final state differs from the initial one only in the position,
advanced over the id and the body), provided the body's element count
fits the skip-loop counter of the source: below 2^31 for enum and
bitmask, whose skip loops count with int (trace_parser.cpp lines 345
and 380), and below 2^32 for function and struct, whose counts pass
through unsigned (line 249).  The provisos are necessary: an enum or
bitmask count with bit 31 set converts to a negative int, the skip
loop body never runs, and only the id and the count are consumed,
leaving the body on the stream (see the counterexample).  A sighting
at or past the first-seen offset consumes nothing beyond the id. -/
theorem retransmitted_signature_skip :
    (∀ (lcf : List Nat → Nat) (s : St) (id : Nat) (sig : FunctionSigState)
      (name : List Nat) (args : List (List Nat)) (rest : List Nat),
      id < 2 ^ 64 → name.length < 2 ^ 64 → args.length < 2 ^ 32 →
      (∀ x ∈ args, x.length < 2 ^ 64) →
      s.functions.getD id none = some sig →
      s.data.drop s.pos =
        enc id ++ (encString name ++ (enc args.length ++ (encStrings args ++ rest))) →
      s.pos + (enc id).length < sig.offset →
      parse_function_sig lcf s =
        (sig, advance ((enc id).length + (encFunBody name args).length) s)) ∧
    (∀ (lcf : List Nat → Nat) (s : St) (id : Nat) (sig : FunctionSigState)
      (rest : List Nat),
      id < 2 ^ 64 → s.functions.getD id none = some sig →
      s.data.drop s.pos = enc id ++ rest →
      sig.offset ≤ s.pos + (enc id).length →
      parse_function_sig lcf s = (sig, advance (enc id).length s)) ∧
    (∀ (s : St) (id : Nat) (sig : StructSigState) (name : List Nat)
      (members : List (List Nat)) (rest : List Nat),
      id < 2 ^ 64 → name.length < 2 ^ 64 → members.length < 2 ^ 32 →
      (∀ x ∈ members, x.length < 2 ^ 64) →
      s.structs.getD id none = some sig →
      s.data.drop s.pos =
        enc id ++ (encString name ++ (enc members.length ++ (encStrings members ++ rest))) →
      s.pos + (enc id).length < sig.offset →
      parse_struct_sig s =
        (sig, advance ((enc id).length + (encStructBody name members).length) s)) ∧
    (∀ (s : St) (id : Nat) (sig : StructSigState) (rest : List Nat),
      id < 2 ^ 64 → s.structs.getD id none = some sig →
      s.data.drop s.pos = enc id ++ rest →
      sig.offset ≤ s.pos + (enc id).length →
      parse_struct_sig s = (sig, advance (enc id).length s)) ∧
    (∀ (s : St) (id : Nat) (sig : EnumSigState)
      (values : List (List Nat × Int)) (rest : List Nat),
      id < 2 ^ 64 → values.length < 2 ^ 31 →
      (∀ p ∈ values, p.1.length < 2 ^ 64) →
      s.enums.getD id none = some sig →
      s.data.drop s.pos =
        enc id ++ (enc values.length ++
          ((values.map (fun p => encString p.1 ++ encSint p.2)).flatten ++ rest)) →
      s.pos + (enc id).length < sig.offset →
      parse_enum_sig s =
        .ok sig (advance ((enc id).length + (encEnumBody values).length) s)) ∧
    (∀ (s : St) (id : Nat) (sig : EnumSigState) (rest : List Nat),
      id < 2 ^ 64 → s.enums.getD id none = some sig →
      s.data.drop s.pos = enc id ++ rest →
      sig.offset ≤ s.pos + (enc id).length →
      parse_enum_sig s = .ok sig (advance (enc id).length s)) ∧
    (∀ (s : St) (id : Nat) (sig : BitmaskSigState)
      (flags : List (List Nat × Nat)) (rest : List Nat),
      id < 2 ^ 64 → flags.length < 2 ^ 31 →
      (∀ p ∈ flags, p.1.length < 2 ^ 64) →
      s.bitmasks.getD id none = some sig →
      s.data.drop s.pos =
        enc id ++ (enc flags.length ++
          ((flags.map (fun p => encString p.1 ++ enc p.2)).flatten ++ rest)) →
      s.pos + (enc id).length < sig.offset →
      parse_bitmask_sig s =
        (sig, advance ((enc id).length + (encBitmaskBody flags).length) s)) ∧
    (∀ (s : St) (id : Nat) (sig : BitmaskSigState) (rest : List Nat),
      id < 2 ^ 64 → s.bitmasks.getD id none = some sig →
      s.data.drop s.pos = enc id ++ rest →
      sig.offset ≤ s.pos + (enc id).length →
      parse_bitmask_sig s = (sig, advance (enc id).length s)) := by
  refine ⟨?_, ?_, ?_, ?_, ?_, ?_, ?_, ?_⟩
  · intro lcf s id sig name args rest h1 h2 h3 h4 h5 h6 h7
    exact fn_skip_exact h1 h2 h3 h4 h5 h6 h7
  · intro lcf s id sig rest h1 h2 h3 h4
    exact fn_noskip_exact h1 h2 h3 h4
  · intro s id sig name members rest h1 h2 h3 h4 h5 h6 h7
    exact struct_skip_exact h1 h2 h3 h4 h5 h6 h7
  · intro s id sig rest h1 h2 h3 h4
    exact struct_noskip_exact h1 h2 h3 h4
  · intro s id sig values rest h1 h2 h3 h4 h5 h6
    exact enum_skip_exact h1 h2 h3 h4 h5 h6
  · intro s id sig rest h1 h2 h3 h4
    exact enum_noskip_exact h1 h2 h3 h4
  · intro s id sig flags rest h1 h2 h3 h4 h5 h6
    exact bitmask_skip_exact h1 h2 h3 h4 h5 h6
  · intro s id sig rest h1 h2 h3 h4
    exact bitmask_noskip_exact h1 h2 h3 h4

/-- Cached function signature with a later first-seen offset (C3 witness). -/
def sigC3f : FunctionSigState :=
  { id := 0, name := [102], arg_names := [], flags := 0, offset := 10 }

/-- Stream presenting id 0 then a retransmitted function body (C3 witness). -/
def stC3fs : St :=
  { data := [0, 1, 102, 0], pos := 0, version := 4, functions := [some sigC3f],
    structs := [], enums := [], bitmasks := [], glGetErrorSig := none,
    next_call_no := 0, calls := [] }

/-- Cached function signature already seen at or before the current offset. -/
def sigC3f2 : FunctionSigState :=
  { id := 0, name := [102], arg_names := [], flags := 0, offset := 1 }

/-- Stream presenting only id 0 (C3 witness, no-skip case). -/
def stC3fn : St :=
  { data := [0], pos := 0, version := 4, functions := [some sigC3f2],
    structs := [], enums := [], bitmasks := [], glGetErrorSig := none,
    next_call_no := 0, calls := [] }

/-- Cached struct signature with a later first-seen offset (C3 witness). -/
def sigC3s : StructSigState :=
  { id := 0, name := [115], member_names := [], offset := 10 }

/-- Stream with a retransmitted struct body (C3 witness). -/
def stC3ss : St :=
  { data := [0, 1, 115, 0], pos := 0, version := 4, functions := [],
    structs := [some sigC3s], enums := [], bitmasks := [],
    glGetErrorSig := none, next_call_no := 0, calls := [] }

/-- Cached struct signature for the no-skip case (C3 witness). -/
def sigC3s2 : StructSigState :=
  { id := 0, name := [115], member_names := [], offset := 1 }

/-- Stream presenting only id 0 for the struct no-skip case. -/
def stC3sn : St :=
  { data := [0], pos := 0, version := 4, functions := [],
    structs := [some sigC3s2], enums := [], bitmasks := [],
    glGetErrorSig := none, next_call_no := 0, calls := [] }

/-- Cached enum signature with a later first-seen offset (C3 witness). -/
def sigC3e : EnumSigState :=
  { id := 0, values := [([65], 0)], offset := 10 }

/-- Stream with a retransmitted enum body (C3 witness). -/
def stC3es : St :=
  { data := [0, 1, 1, 65, 4, 0], pos := 0, version := 4, functions := [],
    structs := [], enums := [some sigC3e], bitmasks := [],
    glGetErrorSig := none, next_call_no := 0, calls := [] }

/-- Cached enum signature for the no-skip case (C3 witness). -/
def sigC3e2 : EnumSigState :=
  { id := 0, values := [([65], 0)], offset := 1 }

/-- Stream presenting only id 0 for the enum no-skip case. -/
def stC3en : St :=
  { data := [0], pos := 0, version := 4, functions := [], structs := [],
    enums := [some sigC3e2], bitmasks := [], glGetErrorSig := none,
    next_call_no := 0, calls := [] }

/-- Cached bitmask signature with a later first-seen offset (C3 witness). -/
def sigC3b : BitmaskSigState :=
  { id := 0, flags := [([66], 1)], offset := 10 }

/-- Stream with a retransmitted bitmask body (C3 witness). -/
def stC3bs : St :=
  { data := [0, 1, 1, 66, 1], pos := 0, version := 4, functions := [],
    structs := [], enums := [], bitmasks := [some sigC3b],
    glGetErrorSig := none, next_call_no := 0, calls := [] }

/-- Cached bitmask signature for the no-skip case (C3 witness). -/
def sigC3b2 : BitmaskSigState :=
  { id := 0, flags := [([66], 1)], offset := 1 }

/-- Stream presenting only id 0 for the bitmask no-skip case. -/
def stC3bn : St :=
  { data := [0], pos := 0, version := 4, functions := [], structs := [],
    enums := [], bitmasks := [some sigC3b2], glGetErrorSig := none,
    next_call_no := 0, calls := [] }

/-- Witness for C3 at concrete retransmission and no-skip streams of
all four signature kinds. -/
theorem retransmitted_signature_skip_witness :
    (stC3fs.functions.getD 0 none = some sigC3f ∧
      stC3fs.pos + (enc 0).length < sigC3f.offset ∧
      parse_function_sig lcf0 stC3fs =
        (sigC3f, advance ((enc 0).length + (encFunBody [102] []).length) stC3fs)) ∧
    (stC3fn.functions.getD 0 none = some sigC3f2 ∧
      sigC3f2.offset ≤ stC3fn.pos + (enc 0).length ∧
      parse_function_sig lcf0 stC3fn = (sigC3f2, advance (enc 0).length stC3fn)) ∧
    (stC3ss.structs.getD 0 none = some sigC3s ∧
      stC3ss.pos + (enc 0).length < sigC3s.offset ∧
      parse_struct_sig stC3ss =
        (sigC3s, advance ((enc 0).length + (encStructBody [115] []).length) stC3ss)) ∧
    (stC3sn.structs.getD 0 none = some sigC3s2 ∧
      sigC3s2.offset ≤ stC3sn.pos + (enc 0).length ∧
      parse_struct_sig stC3sn = (sigC3s2, advance (enc 0).length stC3sn)) ∧
    (stC3es.enums.getD 0 none = some sigC3e ∧
      stC3es.pos + (enc 0).length < sigC3e.offset ∧
      parse_enum_sig stC3es =
        .ok sigC3e (advance ((enc 0).length + (encEnumBody [([65], 0)]).length) stC3es)) ∧
    (stC3en.enums.getD 0 none = some sigC3e2 ∧
      sigC3e2.offset ≤ stC3en.pos + (enc 0).length ∧
      parse_enum_sig stC3en = .ok sigC3e2 (advance (enc 0).length stC3en)) ∧
    (stC3bs.bitmasks.getD 0 none = some sigC3b ∧
      stC3bs.pos + (enc 0).length < sigC3b.offset ∧
      parse_bitmask_sig stC3bs =
        (sigC3b, advance ((enc 0).length + (encBitmaskBody [([66], 1)]).length) stC3bs)) ∧
    (stC3bn.bitmasks.getD 0 none = some sigC3b2 ∧
      sigC3b2.offset ≤ stC3bn.pos + (enc 0).length ∧
      parse_bitmask_sig stC3bn = (sigC3b2, advance (enc 0).length stC3bn)) := by
  refine ⟨⟨by decide, by decide, ?_⟩, ⟨by decide, by decide, ?_⟩,
    ⟨by decide, by decide, ?_⟩, ⟨by decide, by decide, ?_⟩,
    ⟨by decide, by decide, ?_⟩, ⟨by decide, by decide, ?_⟩,
    ⟨by decide, by decide, ?_⟩, ⟨by decide, by decide, ?_⟩⟩
  · exact retransmitted_signature_skip.1 lcf0 stC3fs 0 sigC3f [102] [] []
      (by decide) (by decide) (by decide) (by decide) (by decide) (by decide)
      (by decide)
  · exact retransmitted_signature_skip.2.1 lcf0 stC3fn 0 sigC3f2 []
      (by decide) (by decide) (by decide) (by decide)
  · exact retransmitted_signature_skip.2.2.1 stC3ss 0 sigC3s [115] [] []
      (by decide) (by decide) (by decide) (by decide) (by decide) (by decide)
      (by decide)
  · exact retransmitted_signature_skip.2.2.2.1 stC3sn 0 sigC3s2 []
      (by decide) (by decide) (by decide) (by decide)
  · exact retransmitted_signature_skip.2.2.2.2.1 stC3es 0 sigC3e [([65], 0)] []
      (by decide) (by decide) (by decide) (by decide) (by decide) (by decide)
  · exact retransmitted_signature_skip.2.2.2.2.2.1 stC3en 0 sigC3e2 []
      (by decide) (by decide) (by decide) (by decide)
  · exact retransmitted_signature_skip.2.2.2.2.2.2.1 stC3bs 0 sigC3b [([66], 1)] []
      (by decide) (by decide) (by decide) (by decide) (by decide) (by decide)
  · exact retransmitted_signature_skip.2.2.2.2.2.2.2 stC3bn 0 sigC3b2 []
      (by decide) (by decide) (by decide) (by decide)

/-- The value list of an enum signature with 2^31 entries; its count
has bit 31 set, so the int skip counter of trace_parser.cpp line 345
goes negative. -/
def valsBig : List (List Nat × Int) := List.replicate (2 ^ 31) ([65], 0)

/-- The cached enum signature with the oversized value count, interned
at offset 10. -/
def sigBigE : EnumSigState := { id := 0, values := valsBig, offset := 10 }

/-- A stream carrying a full retransmission of sigBigE before its
first-seen offset: the id followed by the complete body (the count
2^31 and all 2^31 name and value pairs). -/
def stBigC3 : St :=
  { data := enc 0 ++ encEnumBody valsBig, pos := 0, version := 4,
    functions := [], structs := [], enums := [some sigBigE], bitmasks := [],
    glGetErrorSig := none, next_call_no := 0, calls := [] }

/-- C3 counterexample: on a retransmitted enum signature whose value
count is 2^31, the skip branch consumes only the id and the count
(the int loop counter of trace_parser.cpp line 345 is negative, so the
loop never runs), not the id plus the full body the claim demands:
the resulting offset differs from the claimed one. -/
theorem retransmission_skip_overflow_cex :
    parse_enum_sig stBigC3 =
      .ok sigBigE (advance ((enc 0).length + (enc (2 ^ 31)).length) stBigC3) ∧
    (advance ((enc 0).length + (enc (2 ^ 31)).length) stBigC3).pos ≠
      (advance ((enc 0).length + (encEnumBody valsBig).length) stBigC3).pos := by
  have hd0 : stBigC3.data.drop stBigC3.pos = enc 0 ++ encEnumBody valsBig := rfl
  have hru1 : read_uint stBigC3 = (0, advance (enc 0).length stBigC3) :=
    read_uint_of_drop (by norm_num) hd0
  have hlen : valsBig.length = 2 ^ 31 := List.length_replicate _ _
  have hmap : valsBig.map (fun p => encString p.1 ++ encSint p.2)
      = List.replicate (2 ^ 31) (encString [65] ++ encSint 0) :=
    List.map_replicate
  constructor
  · have hc1 : stBigC3.enums.getD (read_uint stBigC3).1 none = some sigBigE := by
      rw [hru1]
      rfl
    have hlt : (read_uint stBigC3).2.pos < sigBigE.offset := by
      rw [hru1]
      simp only [advance]
      have hp0 : stBigC3.pos = 0 := rfl
      have ho : sigBigE.offset = 10 := rfl
      have h1 : (enc 0).length = 1 := by decide
      omega
    have h := pes_cached_skip hc1 hlt
    rw [hru1] at h
    have hd1 : (advance (enc 0).length stBigC3).data.drop
        (advance (enc 0).length stBigC3).pos
        = enc valsBig.length ++
          ((valsBig.map (fun p => encString p.1 ++ encSint p.2)).flatten ++ []) := by
      rw [drop_advance, List.append_nil]
      have h2 := drop_append_of_drop hd0
      rw [h2]
      rfl
    have hvb : valsBig.length < 2 ^ 64 := by rw [hlen]; norm_num
    have hru2 : read_uint (advance (enc 0).length stBigC3)
        = (valsBig.length,
           advance (enc valsBig.length).length (advance (enc 0).length stBigC3)) :=
      read_uint_of_drop hvb hd1
    rw [hru2] at h
    dsimp only at h
    have hs32 : s32Iters valsBig.length = 0 := by
      rw [hlen]
      have : (2 : Nat) ^ 31 % 2 ^ 32 = 2 ^ 31 := by norm_num
      simp [s32Iters, this]
    rw [hs32] at h
    simp only [skipNameSint] at h
    rw [advance_advance, hlen] at h
    exact h
  · have hflatne : (valsBig.map (fun p => encString p.1 ++ encSint p.2)).flatten ≠ [] := by
      intro hnil
      rw [List.flatten_eq_nil_iff] at hnil
      have hm : (encString [65] ++ encSint 0) ∈
          valsBig.map (fun p => encString p.1 ++ encSint p.2) := by
        rw [hmap]
        exact List.mem_replicate.mpr ⟨by norm_num, rfl⟩
      have hc := hnil _ hm
      exact absurd hc (by decide)
    have hpos : 0 <
        ((valsBig.map (fun p => encString p.1 ++ encSint p.2)).flatten).length :=
      List.length_pos.mpr hflatne
    have hB : (encEnumBody valsBig).length
        = (enc (2 ^ 31)).length +
          ((valsBig.map (fun p => encString p.1 ++ encSint p.2)).flatten).length := by
      simp only [encEnumBody, List.length_append, hlen]
    intro he
    rw [advance_pos, advance_pos] at he
    have h3 := Nat.add_left_cancel he
    have h4 := Nat.add_left_cancel h3
    rw [hB] at h4
    omega
